import Mathlib

/-!
Verification of the convoscope conversation-analysis engine.

This file gives a shallow embedding, translated from the Python sources
`src/claude_conversation_analyzer.py`, `src/quality_analyzer.py` and
`src/temporal_analyzer.py`, of the classification, redaction, quality and
temporal-analysis functions, together with theorems settling the behavioural
claims about them.

Conventions of the embedding:
* Text is modelled as `List Char`; Python's `str.lower` is modelled on the
  ASCII range by `asciiLower` (all pattern literals and concrete inputs used
  below are ASCII, apart from emoji, which `lower` leaves unchanged).
* The regular expressions of the static rule tables are embedded by a small
  backtracking matcher (`RE`, `mrun`) that mirrors Python `re` semantics for
  the constructs those tables use: literals, character classes, alternation
  (preferring the left alternative), greedy `*` `+` `?` `{m,}` `{m,n}`, and
  the word-boundary assertion `\b`.  Matching is leftmost, non-overlapping
  for `findall`/`finditer`, exactly as in Python.
* Floating-point results (rates, confidences, rolling means, engagement
  scores) are modelled by exact rationals `ℚ`.
* Operations that can raise in Python return `Option` (`none` = exception).
-/

namespace Convoscope

/-- Python `str.lower` restricted to ASCII: maps `A`-`Z` to `a`-`z`. -/
def lowerChar (c : Char) : Char :=
  if 'A' ≤ c ∧ c ≤ 'Z' then Char.ofNat (c.toNat + 32) else c

/-- ASCII uppercase conversion (Python `str.upper` on the ASCII range). -/
def upperChar (c : Char) : Char :=
  if 'a' ≤ c ∧ c ≤ 'z' then Char.ofNat (c.toNat - 32) else c

def asciiLower (s : List Char) : List Char := s.map lowerChar

def asciiUpper (s : List Char) : List Char := s.map upperChar

/-- Python regex `\w` on the ASCII range: letters, digits and underscore. -/
def isWordChar (c : Char) : Bool := c.isAlphanum || c = '_'

/-- Python regex `\s`: ASCII whitespace. -/
def pyIsSpace (c : Char) : Bool :=
  c = ' ' || c = '\t' || c = '\n' || c = '\r' || c = '\x0b' || c = '\x0c'

/-- Does a `\b` word boundary hold between the previous character (`none` at
the start of the subject) and the rest of the input? -/
def boundaryAt (prev : Option Char) (s : List Char) : Bool :=
  let pw := match prev with
    | none => false
    | some c => isWordChar c
  let nw := match s with
    | [] => false
    | c :: _ => isWordChar c
  pw != nw

/-- Regular-expression ASTs covering the constructs used by the rule tables. -/
inductive RE where
  | eps : RE
  | pred : (Char → Bool) → RE
  | seq : RE → RE → RE
  | alt : RE → RE → RE
  | star : RE → RE
  | wb : RE

/-- Size of a regex, used only to choose an adequate amount of fuel. -/
def reSize : RE → Nat
  | .eps => 1
  | .pred _ => 1
  | .seq a b => reSize a + reSize b + 1
  | .alt a b => reSize a + reSize b + 1
  | .star a => reSize a + 1
  | .wb => 1

/-- Backtracking matcher in continuation-passing style, mirroring Python
`re` preference order: left alternative first, greedy repetition first.
`prev` is the character just before the current position (for `\b`).
The continuation receives the remaining input and the new previous
character; the first success in preference order is returned.  `fuel`
strictly bounds the call depth; `fuelFor` below always provides enough. -/
def mrun : Nat → RE → List Char → Option Char →
    (List Char → Option Char → Option (List Char)) → Option (List Char)
  | 0, _, _, _, _ => none
  | Nat.succ fuel, r, s, prev, k =>
    match r with
    | .eps => k s prev
    | .pred p =>
      match s with
      | [] => none
      | c :: rest => if p c then k rest (some c) else none
    | .seq r1 r2 => mrun fuel r1 s prev fun s2 p2 => mrun fuel r2 s2 p2 k
    | .alt r1 r2 =>
      match mrun fuel r1 s prev k with
      | some res => some res
      | none => mrun fuel r2 s prev k
    | .star r1 =>
      match mrun fuel r1 s prev (fun s2 p2 =>
          if s2.length < s.length then mrun fuel (.star r1) s2 p2 k else none) with
      | some res => some res
      | none => k s prev
    | .wb => if boundaryAt prev s then k s prev else none

/-- Fuel that dominates the maximal call depth of `mrun` on `r` and `s`. -/
def fuelFor (r : RE) (s : List Char) : Nat :=
  (reSize r + 2) * (s.length + 2) + 2

/-- Length of the (greedy, Python-preference) match of `r` at the start of
`s`, if any. -/
def matchAt (r : RE) (s : List Char) (prev : Option Char) : Option Nat :=
  match mrun (fuelFor r s) r s prev fun rem _ => some rem with
  | none => none
  | some rem => some (s.length - rem.length)

/-- Is there a match of `r` anywhere in the input (Python `re.search`)?
Scans candidate start positions left to right. -/
def searchFrom (r : RE) : List Char → Option Char → Bool
  | s, prev =>
    match matchAt r s prev with
    | some _ => true
    | none =>
      match s with
      | [] => false
      | c :: rest => searchFrom r rest (some c)

def reSearch (r : RE) (s : List Char) : Bool := searchFrom r s none

/-- Leftmost non-overlapping matches (Python `re.finditer` /  `re.findall`),
returned as the list of matched substrings in order.  The rule patterns never
match the empty string; an empty match is skipped defensively. -/
def finditerAux (r : RE) : Nat → List Char → Option Char → List (List Char)
  | 0, _, _ => []
  | Nat.succ fuel, s, prev =>
    match matchAt r s prev with
    | none =>
      match s with
      | [] => []
      | c :: rest => finditerAux r fuel rest (some c)
    | some n =>
      if n = 0 then
        match s with
        | [] => []
        | c :: rest => finditerAux r fuel rest (some c)
      else
        s.take n :: finditerAux r fuel (s.drop n) (s.take n).getLast?

def finditer (r : RE) (s : List Char) : List (List Char) :=
  finditerAux r (s.length + 1) s none

/-- `len(re.findall(r, s))`: the number of non-overlapping matches. -/
def countMatches (r : RE) (s : List Char) : Nat := (finditer r s).length

/-- Python `str.replace(old, new)`: replace every non-overlapping occurrence,
left to right (`old` is never empty at the call sites). -/
def replaceAllAux : Nat → List Char → List Char → List Char → List Char
  | 0, s, _, _ => s
  | Nat.succ fuel, s, old, new =>
    if old ≠ [] ∧ s.take old.length = old then
      new ++ replaceAllAux fuel (s.drop old.length) old new
    else
      match s with
      | [] => []
      | c :: rest => c :: replaceAllAux fuel rest old new

def replaceAll (s old new : List Char) : List Char :=
  replaceAllAux (s.length + 1) s old new

/-! Constructors for the concrete shapes appearing in the rule tables. -/

/-- A literal string (each character matched exactly). -/
def litRE (s : String) : RE :=
  s.toList.foldr (fun c acc => RE.seq (RE.pred fun x => x = c) acc) RE.eps

/-- A case-insensitive literal (for rules applied with `re.IGNORECASE` to
text that has not been lowercased). -/
def ciLitRE (s : String) : RE :=
  s.toList.foldr (fun c acc => RE.seq (RE.pred fun x => lowerChar x = lowerChar c) acc) RE.eps

/-- `a|b|c`, preferring earlier alternatives, as Python does. -/
def altsRE : List RE → RE
  | [] => RE.pred fun _ => false
  | [r] => r
  | r :: rest => RE.alt r (altsRE rest)

/-- `\b(w1|w2|...)\b` over literal words/phrases — the shape of almost every
rule in the topic/sentiment/failure/quality tables. -/
def wordAltRE (ws : List String) : RE :=
  RE.seq RE.wb (RE.seq (altsRE (ws.map litRE)) RE.wb)

/-- A bare alternation of literals (emoji and punctuation rules, no `\b`). -/
def plainAltRE (ws : List String) : RE := altsRE (ws.map litRE)

/-- Greedy `r?`. -/
def optRE (r : RE) : RE := RE.alt r RE.eps

/-- Greedy `r+`. -/
def plusRE (r : RE) : RE := RE.seq r (RE.star r)

/-- `r{n}`. -/
def repRE : Nat → RE → RE
  | 0, _ => RE.eps
  | Nat.succ n, r => RE.seq r (repRE n r)

/-- Greedy `r{n,}`. -/
def repAtLeastRE (n : Nat) (r : RE) : RE := RE.seq (repRE n r) (RE.star r)

/-- Greedy `r{0,k}` (prefers more repetitions, like Python). -/
def upToRE : Nat → RE → RE
  | 0, _ => RE.eps
  | Nat.succ k, r => optRE (RE.seq r (upToRE k r))

/-- Greedy `r{m,n}`. -/
def repRangeRE (m n : Nat) (r : RE) : RE := RE.seq (repRE m r) (upToRE (n - m) r)

/-- Sequence of several regexes. -/
def seqsRE : List RE → RE
  | [] => RE.eps
  | [r] => r
  | r :: rest => RE.seq r (seqsRE rest)

/-!  ## Privacy redaction (`ClaudeConversationAnalyzer.redact_pii`)

The PII rules are applied with `re.IGNORECASE` to the raw (non-lowercased)
text; the sensitive-entity rules are applied afterwards, case-sensitively,
to the already-partially-redacted text. -/

def digitC : RE := RE.pred Char.isDigit

def wsC : RE := RE.pred pyIsSpace

/-- `\b[A-Za-z0-9._%+-]+@[A-Za-z0-9.-]+\.[A-Z|a-z]{2,}\b`  (note: the final
class in the source really contains the `|` character). -/
def emailRE : RE :=
  seqsRE [RE.wb,
    plusRE (RE.pred fun c => c.isAlphanum || c = '.' || c = '_' || c = '%' || c = '+' || c = '-'),
    RE.pred (fun c => c = '@'),
    plusRE (RE.pred fun c => c.isAlphanum || c = '.' || c = '-'),
    RE.pred (fun c => c = '.'),
    repAtLeastRE 2 (RE.pred fun c => c.isAlpha || c = '|'),
    RE.wb]

/-- `\b(?:\+?1[-.]?)?\(?([0-9]{3})\)?[-.]?([0-9]{3})[-.]?([0-9]{4})\b`
(capture groups do not affect the matched extent). -/
def phoneRE : RE :=
  seqsRE [RE.wb,
    optRE (seqsRE [optRE (RE.pred fun c => c = '+'), RE.pred (fun c => c = '1'),
      optRE (RE.pred fun c => c = '-' || c = '.')]),
    optRE (RE.pred fun c => c = '('),
    repRE 3 digitC,
    optRE (RE.pred fun c => c = ')'),
    optRE (RE.pred fun c => c = '-' || c = '.'),
    repRE 3 digitC,
    optRE (RE.pred fun c => c = '-' || c = '.'),
    repRE 4 digitC,
    RE.wb]

/-- `\b\d{3}-\d{2}-\d{4}\b`. -/
def ssnRE : RE :=
  seqsRE [RE.wb, repRE 3 digitC, RE.pred (fun c => c = '-'), repRE 2 digitC,
    RE.pred (fun c => c = '-'), repRE 4 digitC, RE.wb]

/-- `\b\d{4}[-\s]?\d{4}[-\s]?\d{4}[-\s]?\d{4}\b`. -/
def creditCardRE : RE :=
  seqsRE [RE.wb, repRE 4 digitC,
    optRE (RE.pred fun c => c = '-' || pyIsSpace c), repRE 4 digitC,
    optRE (RE.pred fun c => c = '-' || pyIsSpace c), repRE 4 digitC,
    optRE (RE.pred fun c => c = '-' || pyIsSpace c), repRE 4 digitC, RE.wb]

/-- `\b\d+\s+[\w\s]+(?:street|st|avenue|ave|road|rd|boulevard|blvd|drive|dr|court|ct|lane|ln)\b`
applied with `re.IGNORECASE`. -/
def addressRE : RE :=
  seqsRE [RE.wb, plusRE digitC, plusRE wsC,
    plusRE (RE.pred fun c => isWordChar c || pyIsSpace c),
    altsRE (["street", "st", "avenue", "ave", "road", "rd", "boulevard", "blvd",
      "drive", "dr", "court", "ct", "lane", "ln"].map ciLitRE),
    RE.wb]

/-- `\b(?:\d{1,3}\.){3}\d{1,3}\b`. -/
def ipAddressRE : RE :=
  seqsRE [RE.wb,
    repRE 3 (RE.seq (repRangeRE 1 3 digitC) (RE.pred fun c => c = '.')),
    repRangeRE 1 3 digitC, RE.wb]

/-- `\b[A-Za-z0-9]{32,}\b`. -/
def apiKeyRE : RE :=
  seqsRE [RE.wb, repAtLeastRE 32 (RE.pred Char.isAlphanum), RE.wb]

/-- The ordered PII table `privacy_patterns` (dict insertion order). -/
def privacyPatterns : List (String × RE) :=
  [("email", emailRE), ("phone", phoneRE), ("ssn", ssnRE),
   ("credit_card", creditCardRE), ("address", addressRE),
   ("ip_address", ipAddressRE), ("api_key", apiKeyRE)]

/-- `\b(?:Dr\.|Mr\.|Mrs\.|Ms\.|Prof\.)\s+[A-Z][a-z]+(?:\s+[A-Z][a-z]+)*\b`
(case-sensitive). -/
def personNameRE : RE :=
  seqsRE [RE.wb,
    altsRE (["Dr.", "Mr.", "Mrs.", "Ms.", "Prof."].map litRE),
    plusRE wsC, RE.pred Char.isUpper, plusRE (RE.pred Char.isLower),
    RE.star (seqsRE [plusRE wsC, RE.pred Char.isUpper, plusRE (RE.pred Char.isLower)]),
    RE.wb]

/-- `\b[A-Z][a-z]+\s+[A-Z][a-z]+\b` (case-sensitive). -/
def fullNameRE : RE :=
  seqsRE [RE.wb, RE.pred Char.isUpper, plusRE (RE.pred Char.isLower), plusRE wsC,
    RE.pred Char.isUpper, plusRE (RE.pred Char.isLower), RE.wb]

/-- The ordered sensitive-entity table `sensitive_entities`. -/
def sensitiveEntities : List (String × RE) :=
  [("person_name", personNameRE), ("full_name", fullNameRE)]

/-- Keep the first occurrence of each element (the membership content of
Python's `list(set(...))`, whose iteration order is unspecified). -/
def dedupFirst : List String → List String → List String
  | _, [] => []
  | seen, x :: xs =>
    if x ∈ seen then dedupFirst seen xs else x :: dedupFirst (x :: seen) xs

/-- One redaction rule of the PII stage: collect the matches of `pat` on a
snapshot of the current text (Python's lazy `finditer` iterates over the
string object captured at call time), then for each match replace **all**
occurrences of the matched substring and record the rule's label. -/
def applyPiiRule (acc : List Char × List String) (rule : String × RE) :
    List Char × List String :=
  let ms := finditer rule.2 acc.1
  ms.foldl
    (fun acc2 m =>
      (replaceAll acc2.1 m (('[' :: (asciiUpper rule.1.toList)) ++ "_REDACTED]".toList),
       acc2.2 ++ [rule.1]))
    acc

/-- One rule of the sensitive-entity stage; the replacement token embeds an
8-character digest of the matched substring.  The digest function (`md5` in
the source, an external library call) is a parameter `hash8`. -/
def applyEntityRule (hash8 : List Char → List Char) (acc : List Char × List String)
    (rule : String × RE) : List Char × List String :=
  let ms := finditer rule.2 acc.1
  ms.foldl
    (fun acc2 m =>
      (replaceAll acc2.1 m
        ((('[' :: (asciiUpper rule.1.toList)) ++ ('_' :: hash8 m)) ++ [']']),
       acc2.2 ++ [rule.1]))
    acc

/-- `ClaudeConversationAnalyzer.redact_pii`.  Returns the redacted text and
the list of redaction labels (deduplicated; Python returns
`list(set(...))`, whose order is unspecified — only membership is
meaningful).  `enable` is the analyzer's `enable_privacy` flag. -/
def redact_pii (hash8 : List Char → List Char) (enable : Bool) (text : List Char) :
    List Char × List String :=
  if enable = false then (text, [])
  else
    let step1 := privacyPatterns.foldl applyPiiRule (text, [])
    let step2 := sensitiveEntities.foldl (applyEntityRule hash8) step1
    (step2.1, dedupFirst [] step2.2)

/-!  ## Content classifiers (topic / sentiment / failure tables) -/

/-- The patterns of the `Technical/Coding` topic (named so instances of the
topic-membership property can refer to the entry). -/
def techCodingPats : List RE :=
  [wordAltRE ["python", "javascript", "typescript", "java", "c++", "rust", "go", "ruby"],
   wordAltRE ["code", "function", "class", "method", "api", "endpoint", "docker", "kubernetes", "git"],
   wordAltRE ["debug", "error", "exception", "stack trace", "bug", "fix", "refactor"],
   wordAltRE ["programming", "development", "software", "script", "algorithm"],
   wordAltRE ["container", "deployment", "ci/cd", "devops", "infrastructure"]]

/-- The ordered table `topic_patterns`. -/
def topicPatterns : List (String × List RE) :=
  [("Technical/Coding", techCodingPats),
   ("AI/ML",
    [wordAltRE ["machine learning", "neural network", "deep learning", "transformer"],
     wordAltRE ["model", "training", "inference", "embeddings", "vector", "llm", "gpt"],
     wordAltRE ["artificial intelligence", "ai", "ml", "nlp", "computer vision"],
     wordAltRE ["huggingface", "pytorch", "tensorflow", "langchain", "openai"],
     RE.seq RE.wb (RE.seq (altsRE [litRE "prompt",
       seqsRE [litRE "fine", optRE (RE.pred fun c => c = '-'), litRE "tun"],
       litRE "dataset", litRE "optimization"]) RE.wb)]),
   ("BlaqVox Project",
    [wordAltRE ["blaqvox"],
     wordAltRE ["community intelligence"],
     wordAltRE ["government data"],
     wordAltRE ["public records"],
     wordAltRE ["data liberation"],
     altsRE [RE.seq RE.wb (litRE "dashboard"), litRE "visualization",
       RE.seq (litRE "analytics") RE.wb]]),
   ("GrandRYZE",
    [wordAltRE ["grandrize"],
     wordAltRE ["equipment analysis"],
     wordAltRE ["image classification"],
     wordAltRE ["flask api"]]),
   ("Healthcare/VA",
    [wordAltRE ["va", "veteran", "medical", "healthcare", "johanna", "cardiac", "hospital"],
     wordAltRE ["doctor", "physician", "appointment", "emergency", "treatment"],
     wordAltRE ["medication", "prescription", "diagnosis", "symptoms"],
     altsRE [RE.seq RE.wb (litRE "advocacy"), litRE "congressional",
       RE.seq (litRE "representative") RE.wb]]),
   ("Philosophy/Consciousness",
    [RE.seq RE.wb (RE.seq (altsRE [litRE "ubuntu", litRE "consciousness",
       seqsRE [litRE "ma", optRE (RE.pred fun c => c = '\x27'), litRE "at"],
       litRE "kemetic", litRE "liberation"]) RE.wb),
     wordAltRE ["philosophy", "wisdom", "sacred", "collective", "interconnect"],
     wordAltRE ["phoenix", "activation", "framework", "sovereign"],
     wordAltRE ["mindfulness", "awareness", "presence", "being"]]),
   ("Creative/Art",
    [wordAltRE ["music", "art", "creative", "generate", "image", "video", "rap", "freestyle"],
     wordAltRE ["production", "studio", "design", "composition", "visual"],
     RE.seq RE.wb (RE.seq (altsRE
       [seqsRE [litRE "dall", optRE (RE.pred fun c => c = '-'), litRE "e"],
        litRE "midjourney", litRE "stable diffusion", litRE "comfyui"]) RE.wb),
     wordAltRE ["poetry", "writing", "storytelling", "narrative"]]),
   ("Personal/Life",
    [wordAltRE ["family", "relationship", "personal", "feeling", "emotion"],
     wordAltRE ["christmas", "holiday", "vacation", "travel", "ocean shores"],
     wordAltRE ["advice", "guidance", "support", "help"]]),
   ("Infrastructure",
    [wordAltRE ["server", "deployment", "infrastructure", "docker", "container"],
     wordAltRE ["architecture", "system design", "optimization", "scaling"],
     wordAltRE ["database", "postgres", "mongodb", "redis", "vector db"],
     wordAltRE ["nginx", "apache", "cloud", "aws", "azure", "gcp"]]),
   ("Data Analysis",
    [wordAltRE ["data", "analysis", "statistics", "metrics", "analytics"],
     wordAltRE ["pandas", "numpy", "matplotlib", "visualization"],
     wordAltRE ["csv", "excel", "json", "sql", "query"]]),
   ("Documentation",
    [wordAltRE ["documentation", "docs", "readme", "guide", "tutorial"],
     wordAltRE ["explain", "clarify", "describe", "outline"],
     wordAltRE ["technical writing", "specification", "requirements"]]),
   ("Debugging",
    [wordAltRE ["debug", "troubleshoot", "diagnose", "investigate"],
     wordAltRE ["error", "exception", "traceback", "failing", "broken"],
     wordAltRE ["logs", "logging", "monitoring", "observability"]]),
   ("Security/Privacy",
    [wordAltRE ["security", "privacy", "encryption", "authentication"],
     wordAltRE ["vulnerability", "exploit", "breach", "attack"],
     wordAltRE ["gdpr", "compliance", "data protection"]])]

/-- `ClaudeConversationAnalyzer.detect_topics`: a topic is appended (once,
the inner loop `break`s) when any of its patterns matches the lowercased
text; `['General']` when nothing matched. -/
def detect_topics (text : List Char) : List String :=
  let tl := asciiLower text
  let detected := topicPatterns.foldl
    (fun acc tp => if tp.2.any fun r => reSearch r tl then acc ++ [tp.1] else acc) []
  if detected = [] then ["General"] else detected

/-- The ordered table `sentiment_patterns` (8 categories). -/
def sentimentPatterns : List (String × List RE) :=
  [("Very Positive",
    [wordAltRE ["amazing", "excellent", "perfect", "brilliant", "outstanding", "fantastic"],
     wordAltRE ["love it", "absolutely", "phenomenal", "incredible", "wonderful"],
     plainAltRE ["🔥", "✨", "💯", "🎉", "🚀", "⭐"]]),
   ("Positive",
    [wordAltRE ["great", "good", "nice", "helpful", "thanks", "appreciate", "useful"],
     wordAltRE ["works", "working", "solved", "fixed", "better"],
     plainAltRE ["😊", "👍", "👌", "✅", "💪"]]),
   ("Neutral",
    [wordAltRE ["okay", "fine", "alright", "understood", "noted", "got it"],
     wordAltRE ["interesting", "see", "makes sense"]]),
   ("Negative",
    [wordAltRE ["wrong", "error", "failed", "broken", "issue", "problem"],
     wordAltRE ["doesn\x27t work", "not working", "frustrated", "confused"],
     plainAltRE ["😞", "👎", "❌"]]),
   ("Very Negative",
    [wordAltRE ["terrible", "horrible", "awful", "useless", "disaster", "catastrophe"],
     wordAltRE ["hate", "angry", "furious", "completely broken"],
     plainAltRE ["😠", "💔", "😡", "🤬"]]),
   ("Urgent",
    [wordAltRE ["urgent", "emergency", "asap", "immediately", "critical", "now", "help"],
     wordAltRE ["deadline", "time-sensitive", "rush", "quickly"],
     plainAltRE ["!!", "!!!", "⚠️", "🚨", "‼️"]]),
   ("Questioning",
    [wordAltRE ["why", "how", "what", "when", "where", "confused", "unclear"],
     wordAltRE ["can you", "could you", "would you", "please explain"],
     plainAltRE ["❓", "🤔"]]),
   ("Collaborative",
    [wordAltRE ["let\x27s", "we can", "together", "collaborate", "partnership"],
     wordAltRE ["team", "work with", "joint", "cooperative"],
     plainAltRE ["🤝", "💫"]])]

/-- Per-category total `re.findall` count over the lowercased text. -/
def sentimentScores (text : List Char) : List (String × Nat) :=
  sentimentPatterns.map fun sp =>
    (sp.1, (sp.2.map fun r => countMatches r (asciiLower text)).foldl (· + ·) 0)

/-- One comparison step of Python `max(..., key=lambda x: x[1])`: keep the
current best unless the next value is strictly greater (so the first
maximal element wins). -/
def argStep (b y : String × Nat) : String × Nat := if b.2 < y.2 then y else b

/-- Python `max(items, key=lambda x: x[1])` on a non-empty association list:
the **first** entry attaining the maximal value (Python's `max` keeps the
first maximal element). -/
def pyArgmax : List (String × Nat) → String × Nat
  | [] => ("", 0)
  | x :: xs => xs.foldl argStep x

/-- `ClaudeConversationAnalyzer.detect_sentiment`. -/
def detect_sentiment (text : List Char) : String :=
  let scores := sentimentScores text
  if 0 < ((scores.lookup "Urgent").getD 0) then "Urgent"
  else
    let m := pyArgmax scores
    if 0 < m.2 then m.1 else "Neutral"

/-- The ordered table `failure_patterns`: (category, severity, patterns). -/
def failurePatterns : List (String × String × List RE) :=
  [("Hallucination", "high",
    [wordAltRE ["that\x27s not true", "incorrect", "wrong", "didn\x27t say", "made up"],
     wordAltRE ["hallucinating", "fabricated", "inaccurate", "false"],
     wordAltRE ["never said", "not what i", "completely wrong"]]),
   ("Refusal (Unnecessary)", "medium",
    [wordAltRE ["won\x27t help", "can\x27t assist", "unable to", "against guidelines"],
     wordAltRE ["safety", "harmful", "inappropriate", "cannot provide"],
     wordAltRE ["not allowed", "prohibited", "restricted"]]),
   ("Formatting Issues", "low",
    [wordAltRE ["formatting", "markdown", "broken", "display", "render"],
     wordAltRE ["code block", "syntax", "structure", "layout"]]),
   ("Repetition", "medium",
    [wordAltRE ["repeating", "said that already", "again", "duplicate"],
     wordAltRE ["circular", "loop", "same thing", "redundant"]]),
   ("Misunderstanding", "medium",
    [wordAltRE ["didn\x27t understand", "misunderstood", "confused", "clarify"],
     wordAltRE ["what i meant", "not what i asked", "missed the point"]]),
   ("Performance Theater", "low",
    [wordAltRE ["too formal", "corporate speak", "hedging", "verbose"],
     wordAltRE ["unnecessary", "over-explaining", "preamble"],
     wordAltRE ["cut the", "just answer", "get to the point"]]),
   ("Tool Misuse", "high",
    [wordAltRE ["wrong tool", "should have searched", "didn\x27t search"],
     wordAltRE ["tool error", "failed to fetch", "api error"],
     wordAltRE ["why didn\x27t you", "forgot to use"]]),
   ("Context Loss", "high",
    [wordAltRE ["forgot", "lost context", "earlier conversation", "remember"],
     wordAltRE ["previous", "before", "you said", "we discussed"],
     wordAltRE ["already told you", "keep forgetting"]]),
   ("Accuracy Error", "high",
    [wordAltRE ["factually wrong", "incorrect information", "outdated"],
     wordAltRE ["not accurate", "misinformation", "error in"]]),
   ("Incomplete Response", "medium",
    [wordAltRE ["didn\x27t finish", "cut off", "incomplete", "partial"],
     wordAltRE ["where\x27s the rest", "finish this", "complete"]]),
   ("Ignored Instructions", "high",
    [wordAltRE ["asked you not to", "told you to", "ignored", "didn\x27t follow"],
     wordAltRE ["specifically said", "explicitly requested"]])]

/-- `ClaudeConversationAnalyzer.detect_failures`: a category (and its
severity, in parallel) is appended once when any of its patterns matches
the lowercased text (the inner loop `break`s). -/
def detect_failures (text : List Char) : List String × List String :=
  let tl := asciiLower text
  failurePatterns.foldl
    (fun acc fp =>
      if fp.2.2.any fun r => reSearch r tl then
        (acc.1 ++ [fp.1], acc.2 ++ [fp.2.1])
      else acc)
    ([], [])

/-- Python string `<` (lexicographic by code point). -/
def pyListLt : List Char → List Char → Bool
  | _, [] => false
  | [], _ :: _ => true
  | a :: xs, b :: ys =>
    if a.toNat < b.toNat then true
    else if b.toNat < a.toNat then false
    else pyListLt xs ys

def pyStrLt (a b : String) : Bool := pyListLt a.toList b.toList

/-- Python two-argument `max` on strings (keeps the first on ties). -/
def pyMax2 (a b : String) : String := if pyStrLt a b then b else a

/-- Python `max(l, default=d)` on strings (lexicographic; ignores the
default when the list is non-empty). -/
def pyStrMax (l : List String) (dflt : String) : String :=
  match l with
  | [] => dflt
  | x :: xs => xs.foldl pyMax2 x

/-- The `max_failure_severity` column of `parse_conversations`:
`max(severities, default='none') if severities else 'none'`, where the
severities come from `detect_failures` for assistant-like roles and are
`([], [])` otherwise. -/
def max_failure_severity (role : String) (text : List Char) : String :=
  let sevs := if role = "assistant" ∨ role = "bot" then (detect_failures text).2 else []
  pyStrMax sevs "none"

/-!  ## `generate_statistics` (division-fault claim) -/

/-- The per-message row fields of the parsed DataFrame that
`generate_statistics` reads for the counts in question. -/
structure StatsRow where
  role : String
  hasFailure : Bool
deriving Repr, DecidableEq

/-- The aggregate fields of `generate_statistics` relevant here.  In the
source, `failure_rate` is
`len(df[df['has_failure']]) / len(df[df['role'].isin(['assistant','bot'])]) * 100`
with no guard: both lengths are Python ints, so a zero assistant count
raises `ZeroDivisionError`.  The embedding returns `none` in that case. -/
structure Stats where
  total_messages : Nat
  user_messages : Nat
  assistant_messages : Nat
  messages_with_failures : Nat
  failure_rate : ℚ
deriving Repr, DecidableEq

def assistantCount (rows : List StatsRow) : Nat :=
  (rows.filter fun r => r.role = "assistant" || r.role = "bot").length

/-- `ClaudeConversationAnalyzer.generate_statistics` (the fields above).
`none` models the `ZeroDivisionError` raised while building the stats
dictionary when there are zero assistant-role rows. -/
def generate_statistics (rows : List StatsRow) : Option Stats :=
  let ac := assistantCount rows
  let wf := (rows.filter fun r => r.hasFailure).length
  if ac = 0 then none
  else some
    { total_messages := rows.length
      user_messages := (rows.filter fun r => r.role = "user" || r.role = "human").length
      assistant_messages := ac
      messages_with_failures := wf
      failure_rate := (wf : ℚ) / (ac : ℚ) * 100 }

/-!  ## Quality analyzer (`quality_analyzer.py`) -/

/-- The `completed` patterns of `completion_patterns`. -/
def completedPats : List RE :=
  [wordAltRE ["done", "finished", "completed", "solved", "fixed", "built", "created"],
   wordAltRE ["works", "working", "success", "accomplished"],
   wordAltRE ["thank you", "thanks", "perfect", "exactly what i needed"],
   plainAltRE ["✅", "✓", "☑"]]

/-- The `abandoned` patterns of `completion_patterns`. -/
def abandonedPats : List RE :=
  [wordAltRE ["give up", "never mind", "forget it", "doesn\x27t matter"],
   wordAltRE ["not worth it", "too complicated"]]

/-- The `blocked` patterns of `completion_patterns`. -/
def blockedPats : List RE :=
  [wordAltRE ["can\x27t", "won\x27t", "unable", "impossible", "blocked"],
   wordAltRE ["limitation", "restriction", "not supported"]]

/-- The ordered table `completion_patterns`. -/
def completionPatterns : List (String × List RE) :=
  [("completed", completedPats), ("abandoned", abandonedPats), ("blocked", blockedPats)]

/-- `' '.join(messages).lower()`. -/
def joinedLower (texts : List (List Char)) : List Char :=
  asciiLower (List.intercalate [' '] texts)

/-- Per-status total `re.findall` count over the joined lowercased text. -/
def completionScores (texts : List (List Char)) : List (String × Nat) :=
  completionPatterns.map fun sp =>
    (sp.1, (sp.2.map fun r => countMatches r (joinedLower texts)).foldl (· + ·) 0)

/-- Result record of `analyze_task_completion`. -/
structure TaskCompletion where
  status : String
  scores : List (String × Nat)
  confidence : ℚ
deriving Repr, DecidableEq

/-- `ConversationQualityAnalyzer.analyze_task_completion`. -/
def analyze_task_completion (texts : List (List Char)) : TaskCompletion :=
  let scores := completionScores texts
  let c := (scores.lookup "completed").getD 0
  let a := (scores.lookup "abandoned").getD 0
  let b := (scores.lookup "blocked").getD 0
  { status :=
      if a + b < c then "completed"
      else if 0 < a then "abandoned"
      else if 0 < b then "blocked"
      else "in_progress"
    scores := scores
    confidence :=
      (((([c, a, b].foldl Nat.max 0 : Nat)) : ℚ) / (((c + a + b : Nat) : ℚ) + 1)) }

/-- The `high` patterns of `collaboration_patterns`. -/
def collabHighPats : List RE :=
  [wordAltRE ["let\x27s", "we can", "together", "collaborate", "build on"],
   wordAltRE ["great idea", "love it", "perfect", "excellent suggestion"],
   wordAltRE ["yes and", "building on that", "expanding"]]

/-- The `medium` patterns of `collaboration_patterns`. -/
def collabMediumPats : List RE :=
  [wordAltRE ["okay", "sure", "alright", "that works"],
   wordAltRE ["makes sense", "i see", "understood"]]

/-- The `low` patterns of `collaboration_patterns`. -/
def collabLowPats : List RE :=
  [wordAltRE ["no", "wrong", "don\x27t", "not what i", "missed the point"],
   wordAltRE ["unclear", "confused", "doesn\x27t make sense"]]

/-- The `confrontational` patterns of `collaboration_patterns`. -/
def collabConfPats : List RE :=
  [wordAltRE ["you\x27re wrong", "that\x27s stupid", "terrible", "useless"],
   wordAltRE ["obviously", "clearly you", "don\x27t you understand"]]

/-- The ordered table `collaboration_patterns`. -/
def collaborationPatterns : List (String × List RE) :=
  [("high", collabHighPats), ("medium", collabMediumPats), ("low", collabLowPats),
   ("confrontational", collabConfPats)]

/-- One message of the inner loop of `analyze_collaboration_quality`: for
each category, the score grows by the number of that category's patterns
matching the message (the source has **no** `break` in the pattern loop, so
every matching pattern increments). -/
def collabStep (scores : List (String × Nat)) (text : List Char) : List (String × Nat) :=
  let tl := asciiLower text
  scores.map fun qn =>
    (qn.1,
     qn.2 + (((collaborationPatterns.lookup qn.1).getD []).filter
       fun r => reSearch r tl).length)

def collabInit : List (String × Nat) := collaborationPatterns.map fun p => (p.1, 0)

def collabScoresOf (msgs : List (List Char)) : List (String × Nat) :=
  msgs.foldl collabStep collabInit

/-- `ConversationQualityAnalyzer.analyze_collaboration_quality`. -/
def analyze_collaboration_quality (msgs : List (List Char)) : String :=
  let scores := collabScoresOf msgs
  let g := fun q => (scores.lookup q).getD 0
  if 2 < g "confrontational" then "confrontational"
  else if g "medium" + g "low" < g "high" then "high"
  else if g "high" < g "low" then "low"
  else "medium"

/-!  ## Temporal analyzer (`temporal_analyzer.py`) -/

/-- One conversation-streak record. -/
structure Streak where
  start_date : Nat
  end_date : Nat
  length_days : Nat
  message_count : Nat
deriving Repr, DecidableEq

/-- Remove adjacent duplicates of a (sorted) list. -/
def dedupAdj : List Nat → List Nat
  | [] => []
  | [x] => [x]
  | x :: y :: rest =>
    if x = y then dedupAdj (y :: rest) else x :: dedupAdj (y :: rest)

/-- `sorted(df['date'].dropna().unique())`: the distinct active calendar
dates (modelled as day numbers) in ascending order. -/
def activeDates (dates : List Nat) : List Nat :=
  dedupAdj (List.insertionSort (· ≤ ·) dates)

/-- The streak record built from a run of consecutive dates:
`message_count` counts the messages whose date lies in `[start, end]`. -/
def mkStreak (dates : List Nat) (run : List Nat) : Streak :=
  { start_date := run.headD 0
    end_date := run.getLastD 0
    length_days := run.length
    message_count :=
      (dates.filter fun d => run.headD 0 ≤ d ∧ d ≤ run.getLastD 0).length }

/-- The accumulation loop of `identify_conversation_streaks`: extend the
current run while the next active date is exactly one day later, otherwise
emit the run if it is long enough and restart. -/
def streaksGo (dates : List Nat) (minDays : Nat) (cur : List Nat) :
    List Nat → List Streak
  | [] => if minDays ≤ cur.length then [mkStreak dates cur] else []
  | d :: rest =>
    if d = cur.getLastD 0 + 1 then streaksGo dates minDays (cur ++ [d]) rest
    else
      (if minDays ≤ cur.length then [mkStreak dates cur] else []) ++
        streaksGo dates minDays [d] rest

/-- Descending-by-length order used for the final `sorted(..., reverse=True)`
(Python's sort is stable; so is insertion sort with this relation). -/
def streakGE (x y : Streak) : Prop := y.length_days ≤ x.length_days

instance : DecidableRel streakGE := fun x y =>
  inferInstanceAs (Decidable (y.length_days ≤ x.length_days))

instance : IsTotal Streak streakGE :=
  ⟨fun x y => Nat.le_total y.length_days x.length_days⟩

instance : IsTrans Streak streakGE :=
  ⟨fun _ _ _ h1 h2 => Nat.le_trans h2 h1⟩

/-- `TemporalEvolutionAnalyzer.identify_conversation_streaks`; `dates` is
the per-message list of calendar dates. -/
def identify_conversation_streaks (dates : List Nat) (minDays : Nat) : List Streak :=
  let active := activeDates dates
  if active.length < minDays then []
  else
    match active with
    | [] => []
    | a :: rest => List.insertionSort streakGE (streaksGo dates minDays [a] rest)

/-- A message as seen by `detect_pattern_changes`: a timestamp and the
sentiment label assigned by the classifier. -/
structure PMsg where
  ts : Nat
  sentiment : String
deriving Repr, DecidableEq

/-- One detected pattern-change event. -/
structure Change where
  ts : Nat
  ctype : String
  magnitude : ℚ
  direction : String
deriving Repr, DecidableEq

/-- Substring test (`pandas.Series.str.contains` with a literal pattern). -/
def containsSub (pat : List Char) : List Char → Bool
  | [] => pat.isEmpty
  | c :: rest =>
    if (c :: rest).take pat.length = pat then true else containsSub pat rest

/-- The `rolling_sentiment_score` column: the source first sets `1` on rows
whose sentiment contains "Positive", then sets `-1` on rows whose sentiment
contains "Negative" (the later assignment wins), leaving `0` elsewhere. -/
def sentimentScoreOf (s : String) : ℚ :=
  if containsSub "Negative".toList s.toList then -1
  else if containsSub "Positive".toList s.toList then 1
  else 0

/-- Timestamp order on messages. -/
def pmsgLE (a b : PMsg) : Prop := a.ts ≤ b.ts

instance : DecidableRel pmsgLE := fun a b => inferInstanceAs (Decidable (a.ts ≤ b.ts))

instance : IsTotal PMsg pmsgLE := ⟨fun a b => Nat.le_total a.ts b.ts⟩

instance : IsTrans PMsg pmsgLE := ⟨fun _ _ _ => Nat.le_trans⟩

/-- Ascending sort by timestamp (`df.sort_values('timestamp')`;
pandas does not promise stability for ties, insertion sort fixes one
admissible order). -/
def sortByTs (msgs : List PMsg) : List PMsg :=
  List.insertionSort pmsgLE msgs

/-- `rolling(window=10, min_periods=1).mean()` at index `i`: the mean of the
last at most 10 scores ending at `i`. -/
def maAt (scores : List ℚ) (i : Nat) : ℚ :=
  let w := (scores.take (i + 1)).drop (i + 1 - 10)
  (w.foldl (· + ·) 0) / (w.length : ℚ)

/-- `TemporalEvolutionAnalyzer.detect_pattern_changes`: flag every index
whose moving-average jump exceeds 0.5 (the `diff` at index 0 is NaN and is
never flagged), with magnitude the jump and direction read off the moving
average at the flagged row. -/
def detect_pattern_changes (msgs : List PMsg) : List Change :=
  let sorted := sortByTs msgs
  let scores := sorted.map fun m => sentimentScoreOf m.sentiment
  (List.range sorted.length).filterMap fun i =>
    if i = 0 then none
    else
      let shift := |maAt scores i - maAt scores (i - 1)|
      if 1 / 2 < shift then
        some
          { ts := (sorted.getD i ⟨0, ""⟩).ts
            ctype := "sentiment_shift"
            magnitude := shift
            direction := if 0 < maAt scores i then "positive" else "negative" }
      else none

/-- A message row as seen by `calculate_engagement_score`. -/
structure ERow where
  date : Nat
  word_count : Nat
  conv : Nat
deriving Repr, DecidableEq

/-- Keep the first occurrence of each `Nat` (for `unique`/`nunique`). -/
def dedupFirstNat : List Nat → List Nat → List Nat
  | _, [] => []
  | seen, x :: xs =>
    if x ∈ seen then dedupFirstNat seen xs else x :: dedupFirstNat (x :: seen) xs

/-- The per-day aggregation row of `calculate_engagement_score`:
message count, mean word count and distinct-conversation count. -/
structure DayMetric where
  date : Nat
  message_count : Nat
  avg_length : ℚ
  conversation_count : Nat
deriving Repr, DecidableEq

def dayMetric (rows : List ERow) (d : Nat) : DayMetric :=
  let g := rows.filter fun r => r.date = d
  { date := d
    message_count := g.length
    avg_length := ((g.map fun r => (r.word_count : ℚ)).foldl (· + ·) 0) / (g.length : ℚ)
    conversation_count := (dedupFirstNat [] (g.map fun r => r.conv)).length }

def dayMetricsOf (rows : List ERow) : List DayMetric :=
  (List.insertionSort (· ≤ ·) (dedupFirstNat [] (rows.map fun r => r.date))).map
    (dayMetric rows)

/-- `TemporalEvolutionAnalyzer.calculate_engagement_score`: each metric is
normalized by its maximum over all days and the three ratios are combined
with weights 0.4 / 0.3 / 0.3 and scaled by 100.  Floating-point arithmetic
is modelled exactly over `ℚ`. -/
def calculate_engagement_score (rows : List ERow) : List (DayMetric × ℚ) :=
  let days := dayMetricsOf rows
  let maxMc : ℚ := (days.map fun m => (m.message_count : ℚ)).foldl max 0
  let maxAvg : ℚ := (days.map fun m => m.avg_length).foldl max 0
  let maxCc : ℚ := (days.map fun m => (m.conversation_count : ℚ)).foldl max 0
  days.map fun m =>
    (m,
     ((m.message_count : ℚ) / maxMc * (2 / 5) + m.avg_length / maxAvg * (3 / 10) +
         (m.conversation_count : ℚ) / maxCc * (3 / 10)) * 100)

/-!  ## Specification-side definitions

These definitions follow the wording of the specification (they are the
comparison points for refinement-style claims); everything above was
translated from the source. -/

/-- The topic set the specification describes: a topic of the table is
included exactly when at least one of its patterns matches; `General` when
none match. -/
def specTopics (text : List Char) : List String :=
  let matched :=
    (topicPatterns.filter fun tp => tp.2.any fun r => reSearch r (asciiLower text)).map
      fun tp => tp.1
  if matched = [] then ["General"] else matched

/-- The sentiment the specification describes: `Urgent` override, else the
first category (in table order) attaining the maximal score, else
`Neutral` when all scores are zero. -/
def specSentiment (text : List Char) : String :=
  let scores := sentimentScores text
  let m := (scores.map fun p => p.2).foldl Nat.max 0
  if 0 < (scores.lookup "Urgent").getD 0 then "Urgent"
  else if m = 0 then "Neutral"
  else ((scores.find? fun p => p.2 == m).map fun p => p.1).getD "Neutral"

/-- The task-completion score of one status as the specification words it:
total regex-match count over the concatenation of all texts. -/
def specCompletionScore (texts : List (List Char)) (status : String) : Nat :=
  (((completionPatterns.lookup status).getD []).map fun r =>
    countMatches r (joinedLower texts)).sum

/-- The task-completion status decision as the specification words it. -/
def specTaskStatus (texts : List (List Char)) : String :=
  let c := specCompletionScore texts "completed"
  let a := specCompletionScore texts "abandoned"
  let b := specCompletionScore texts "blocked"
  if a + b < c then "completed"
  else if 0 < a then "abandoned"
  else if 0 < b then "blocked"
  else "in_progress"

/-- The task-completion confidence as the specification words it:
`max(scores) / (sum(scores) + 1)`. -/
def specTaskConfidence (texts : List (List Char)) : ℚ :=
  let c := specCompletionScore texts "completed"
  let a := specCompletionScore texts "abandoned"
  let b := specCompletionScore texts "blocked"
  ((Nat.max c (Nat.max a b) : Nat) : ℚ) / (((c + a + b : Nat) : ℚ) + 1)

/-- The per-message collaboration counting claimed by the specification:
a category's score counts the **messages** in which any of its patterns
matches (at most one increment per message per category). -/
def claimedCollabScore (msgs : List (List Char)) (q : String) : Nat :=
  (msgs.filter fun m =>
    ((collaborationPatterns.lookup q).getD []).any fun r => reSearch r (asciiLower m)).length

/-- The collaboration decision cascade (shared by the claimed and the
actual counting). -/
def collabDecision (g : String → Nat) : String :=
  if 2 < g "confrontational" then "confrontational"
  else if g "medium" + g "low" < g "high" then "high"
  else if g "high" < g "low" then "low"
  else "medium"

/-- The collaboration-quality function exactly as the specification claims
it (per-message counting plus the cascade). -/
def claimedCollabQuality (msgs : List (List Char)) : String :=
  collabDecision (claimedCollabScore msgs)

/-- The collaboration counting the source actually performs, written
declaratively: each message contributes one increment per matching pattern
of the category. -/
def collabPatternCount (msgs : List (List Char)) (q : String) : Nat :=
  (msgs.map fun m =>
    (((collaborationPatterns.lookup q).getD []).filter fun r =>
      reSearch r (asciiLower m)).length).sum

/-- The streak record the specification describes for a maximal run of `m`
consecutive active days starting at `b`. -/
def specStreak (dates : List Nat) (b m : Nat) : Streak :=
  { start_date := b
    end_date := b + m - 1
    length_days := m
    message_count := (dates.filter fun d => b ≤ d ∧ d ≤ b + m - 1).length }

/-- The three corpus-wide engagement maxima (named forms of the `let`s of
`calculate_engagement_score`). -/
def engMaxMc (rows : List ERow) : ℚ :=
  ((dayMetricsOf rows).map fun m => (m.message_count : ℚ)).foldl max 0

def engMaxAvg (rows : List ERow) : ℚ :=
  ((dayMetricsOf rows).map fun m => m.avg_length).foldl max 0

def engMaxCc (rows : List ERow) : ℚ :=
  ((dayMetricsOf rows).map fun m => (m.conversation_count : ℚ)).foldl max 0

/-!  ## General helper lemmas -/

theorem foldl_add_eq_sum {α : Type} [AddCommMonoid α] :
    ∀ (l : List α) (b : α), l.foldl (· + ·) b = b + l.sum
  | [], b => by simp
  | x :: xs, b => by
    rw [List.foldl_cons, foldl_add_eq_sum xs (b + x), List.sum_cons, add_assoc]

theorem le_foldl_max {α : Type} [LinearOrder α] :
    ∀ (l : List α) (b : α), b ≤ l.foldl max b
  | [], _ => le_refl _
  | x :: xs, b => le_trans (le_max_left b x) (le_foldl_max xs (max b x))

theorem mem_le_foldl_max {α : Type} [LinearOrder α] :
    ∀ (l : List α) (b a : α), a ∈ l → a ≤ l.foldl max b
  | x :: xs, b, a, h => by
    rcases List.mem_cons.mp h with h | h
    · subst h
      exact le_trans (le_max_right b a) (le_foldl_max xs _)
    · exact mem_le_foldl_max xs (max b x) a h

/-- Accumulating `acc ++ [f x]` over the elements satisfying `P` is
`filter`-then-`map`. -/
theorem foldl_append_filter {α β : Type} (P : α → Bool) (f : α → β) :
    ∀ (l : List α) (acc : List β),
      l.foldl (fun acc tp => if P tp then acc ++ [f tp] else acc) acc =
        acc ++ (l.filter P).map f
  | [], acc => by simp
  | x :: xs, acc => by
    cases h : P x with
    | true =>
      simp only [List.foldl_cons, h, if_true, List.filter_cons, List.map_cons]
      rw [foldl_append_filter P f xs (acc ++ [f x])]
      simp
    | false =>
      simp only [List.foldl_cons, h, Bool.false_eq_true, if_false, List.filter_cons]
      rw [foldl_append_filter P f xs acc]

/-!  ## Lemmas about `pyArgmax` (Python `max` with a key) -/

theorem argFold_val :
    ∀ (xs : List (String × Nat)) (x : String × Nat),
      (xs.foldl argStep x).2 = (xs.map fun p => p.2).foldl Nat.max x.2
  | [], _ => rfl
  | y :: ys, x => by
    rw [List.foldl_cons, argFold_val ys (argStep x y), List.map_cons, List.foldl_cons]
    congr 1
    unfold argStep
    split
    · next h => exact (Nat.max_eq_right (Nat.le_of_lt h)).symm
    · next h => exact (Nat.max_eq_left (Nat.le_of_not_lt h)).symm

theorem argFold_ge_head (xs : List (String × Nat)) (x : String × Nat) :
    x.2 ≤ (xs.foldl argStep x).2 := by
  rw [argFold_val]
  exact le_foldl_max _ _

theorem argFold_stay :
    ∀ (xs : List (String × Nat)) (x : String × Nat),
      (xs.foldl argStep x).2 ≤ x.2 → xs.foldl argStep x = x
  | [], _, _ => rfl
  | y :: ys, x, h => by
    rw [List.foldl_cons] at h ⊢
    by_cases hxy : x.2 < y.2
    · exfalso
      have hs : argStep x y = y := by unfold argStep; rw [if_pos hxy]
      rw [hs] at h
      have h1 := argFold_ge_head ys y
      omega
    · have hs : argStep x y = x := by unfold argStep; rw [if_neg hxy]
      rw [hs] at h ⊢
      exact argFold_stay ys x h

theorem argFold_find :
    ∀ (xs : List (String × Nat)) (x : String × Nat),
      (x :: xs).find? (fun p => p.2 == (xs.foldl argStep x).2) =
        some (xs.foldl argStep x)
  | [], x => by simp [List.find?]
  | y :: ys, x => by
    rw [List.foldl_cons]
    by_cases hxy : x.2 < y.2
    · have hs : argStep x y = y := by unfold argStep; rw [if_pos hxy]
      rw [hs]
      have hlt : x.2 < (ys.foldl argStep y).2 := lt_of_lt_of_le hxy (argFold_ge_head ys y)
      have hx : (x.2 == (ys.foldl argStep y).2) = false := by
        simp only [beq_eq_false_iff_ne, ne_eq]
        omega
      rw [List.find?_cons, hx]
      exact argFold_find ys y
    · have hs : argStep x y = x := by unfold argStep; rw [if_neg hxy]
      rw [hs]
      by_cases hA : (ys.foldl argStep x).2 ≤ x.2
      · have he := argFold_stay ys x hA
        rw [he, List.find?_cons]
        simp
      · have hlt : x.2 < (ys.foldl argStep x).2 := Nat.lt_of_not_le hA
        have hx : (x.2 == (ys.foldl argStep x).2) = false := by
          simp only [beq_eq_false_iff_ne, ne_eq]
          omega
        have hy : (y.2 == (ys.foldl argStep x).2) = false := by
          simp only [beq_eq_false_iff_ne, ne_eq]
          omega
        have := argFold_find ys x
        rw [List.find?_cons, hx] at this
        rw [List.find?_cons, hx, List.find?_cons, hy]
        exact this

/-!  ## Lemmas about severities and the lexicographic maximum (C10) -/

/-- The three severity labels of the failure table. -/
def isSev (s : String) : Prop := s = "low" ∨ s = "medium" ∨ s = "high"

theorem detect_failures_snd_subset :
    ∀ (l : List (String × String × List RE)) (tl : List Char)
      (acc : List String × List String) (s : String),
      s ∈ (l.foldl
        (fun acc fp =>
          if fp.2.2.any fun r => reSearch r tl then
            (acc.1 ++ [fp.1], acc.2 ++ [fp.2.1])
          else acc)
        acc).2 →
      s ∈ acc.2 ∨ s ∈ l.map fun fp => fp.2.1
  | [], _, _, _, h => Or.inl h
  | fp :: rest, tl, acc, s, h => by
    rw [List.foldl_cons] at h
    by_cases hc : (fp.2.2.any fun r => reSearch r tl) = true
    · rw [if_pos hc] at h
      rcases detect_failures_snd_subset rest tl _ s h with h2 | h2
      · rcases List.mem_append.mp h2 with h3 | h3
        · exact Or.inl h3
        · right
          rw [List.map_cons]
          exact List.mem_cons.mpr (Or.inl (List.mem_singleton.mp h3))
      · right
        rw [List.map_cons]
        exact List.mem_cons.mpr (Or.inr h2)
    · rw [if_neg hc] at h
      rcases detect_failures_snd_subset rest tl acc s h with h2 | h2
      · exact Or.inl h2
      · right
        rw [List.map_cons]
        exact List.mem_cons.mpr (Or.inr h2)

theorem detect_failures_sev (text : List Char) :
    ∀ s ∈ (detect_failures text).2, isSev s := by
  intro s hs
  unfold detect_failures at hs
  have := detect_failures_snd_subset failurePatterns (asciiLower text) ([], []) s hs
  rcases this with h | h
  · simp at h
  · unfold isSev
    revert h
    unfold failurePatterns
    intro h
    simp only [List.map_cons, List.map_nil, List.mem_cons, List.not_mem_nil, or_false] at h
    tauto

theorem pyMax2_med_iff {a b : String} (ha : isSev a) (hb : isSev b) :
    pyMax2 a b = "medium" ↔ a = "medium" ∨ b = "medium" := by
  rcases ha with h | h | h <;> rcases hb with g | g | g <;> subst h <;> subst g <;> decide

theorem pyMax2_low_iff {a b : String} (ha : isSev a) (hb : isSev b)
    (ha' : a ≠ "medium") (hb' : b ≠ "medium") :
    pyMax2 a b = "low" ↔ a = "low" ∨ b = "low" := by
  rcases ha with h | h | h <;> rcases hb with g | g | g <;> subst h <;> subst g <;>
    first
    | decide
    | (exact absurd rfl ha')
    | (exact absurd rfl hb')

theorem pyMax2_sev {a b : String} (ha : isSev a) (hb : isSev b) : isSev (pyMax2 a b) := by
  unfold pyMax2
  split
  · exact hb
  · exact ha

/-- Folding the Python two-argument `max` over severity labels realises the
priority `medium > low > high` of lexicographic string order. -/
theorem sevFold :
    ∀ (xs : List String) (x : String), isSev x → (∀ s ∈ xs, isSev s) →
      xs.foldl pyMax2 x =
        if "medium" ∈ x :: xs then "medium"
        else if "low" ∈ x :: xs then "low"
        else "high"
  | [], x, hx, _ => by
    rcases hx with h | h | h <;> subst h <;> decide
  | y :: ys, x, hx, hys => by
    have hy : isSev y := hys y (List.mem_cons_self y ys)
    have hys' : ∀ s ∈ ys, isSev s := fun s hs => hys s (List.mem_cons.mpr (Or.inr hs))
    rw [List.foldl_cons, sevFold ys (pyMax2 x y) (pyMax2_sev hx hy) hys']
    by_cases hmed : x = "medium" ∨ y = "medium" ∨ "medium" ∈ ys
    · have h1 : "medium" ∈ pyMax2 x y :: ys := by
        rcases hmed with h | h | h
        · exact List.mem_cons.mpr (Or.inl ((pyMax2_med_iff hx hy).mpr (Or.inl h)).symm)
        · exact List.mem_cons.mpr (Or.inl ((pyMax2_med_iff hx hy).mpr (Or.inr h)).symm)
        · exact List.mem_cons.mpr (Or.inr h)
      have h2 : "medium" ∈ x :: y :: ys := by
        simp only [List.mem_cons]
        tauto
      rw [if_pos h1, if_pos h2]
    · push_neg at hmed
      obtain ⟨hxm, hym, hysm⟩ := hmed
      have h1 : "medium" ∉ pyMax2 x y :: ys := by
        simp only [List.mem_cons, not_or]
        refine ⟨fun hc => ?_, hysm⟩
        rcases (pyMax2_med_iff hx hy).mp hc.symm with h | h
        · exact hxm h
        · exact hym h
      have h2 : "medium" ∉ x :: y :: ys := by
        simp only [List.mem_cons, not_or]
        exact ⟨fun hc => hxm hc.symm, fun hc => hym hc.symm, hysm⟩
      rw [if_neg h1, if_neg h2]
      by_cases hlow : x = "low" ∨ y = "low" ∨ "low" ∈ ys
      · have h3 : "low" ∈ pyMax2 x y :: ys := by
          rcases hlow with h | h | h
          · exact List.mem_cons.mpr
              (Or.inl ((pyMax2_low_iff hx hy hxm hym).mpr (Or.inl h)).symm)
          · exact List.mem_cons.mpr
              (Or.inl ((pyMax2_low_iff hx hy hxm hym).mpr (Or.inr h)).symm)
          · exact List.mem_cons.mpr (Or.inr h)
        have h4 : "low" ∈ x :: y :: ys := by
          simp only [List.mem_cons]
          tauto
        rw [if_pos h3, if_pos h4]
      · push_neg at hlow
        obtain ⟨hxl, hyl, hysl⟩ := hlow
        have h3 : "low" ∉ pyMax2 x y :: ys := by
          simp only [List.mem_cons, not_or]
          refine ⟨fun hc => ?_, hysl⟩
          rcases (pyMax2_low_iff hx hy hxm hym).mp hc.symm with h | h
          · exact hxl h
          · exact hyl h
        have h4 : "low" ∉ x :: y :: ys := by
          simp only [List.mem_cons, not_or]
          exact ⟨fun hc => hxl hc.symm, fun hc => hyl hc.symm, hysl⟩
        rw [if_neg h3, if_neg h4]

/-!  ## Claim theorems -/

/-- Claim C1 (code bug evidence): a classified message collection with one
`user` message and zero assistant-role messages has `assistantCount = 0`,
and `generate_statistics` hits the unguarded division
`messages_with_failures / assistant_messages` there — modelled by `none`
(the Python code raises `ZeroDivisionError`), where the claim demands a
failure rate of `0` and no division fault. -/
theorem claim_C1_failure_rate_division_fault :
    assistantCount [{ role := "user", hasFailure := false }] = 0 ∧
    generate_statistics [{ role := "user", hasFailure := false }] = none :=
  ⟨rfl, rfl⟩

/-- Claim C10: for every assistant message, the recorded
`max_failure_severity` is the lexicographic string maximum of the detected
severity labels, an order in which `medium > low > high`; so it is
`medium` whenever any detected severity is medium, then `low`, then
`high`, and `none` when no failure was detected.  In particular the text
"fabricated markdown" detects exactly the severities `{high, low}` and
records `low`. -/
theorem claim_C10_max_failure_severity :
    (∀ text : List Char,
      max_failure_severity "assistant" text =
        if "medium" ∈ (detect_failures text).2 then "medium"
        else if "low" ∈ (detect_failures text).2 then "low"
        else if "high" ∈ (detect_failures text).2 then "high"
        else "none") ∧
    (detect_failures "fabricated markdown".toList).2 = ["high", "low"] ∧
    max_failure_severity "assistant" "fabricated markdown".toList = "low" ∧
    (detect_failures "repeating".toList).2 = ["medium"] ∧
    max_failure_severity "assistant" "repeating".toList = "medium" := by
  refine ⟨?_, by decide, by decide, by decide, by decide⟩
  intro text
  unfold max_failure_severity
  rw [if_pos (Or.inl rfl : ("assistant" : String) = "assistant" ∨ ("assistant" : String) = "bot")]
  have hsev := detect_failures_sev text
  cases h : (detect_failures text).2 with
  | nil => simp [pyStrMax]
  | cons x xs =>
    rw [h] at hsev
    have hx : isSev x := hsev x (List.mem_cons_self x xs)
    have hxs : ∀ s ∈ xs, isSev s := fun s hs => hsev s (List.mem_cons.mpr (Or.inr hs))
    show xs.foldl pyMax2 x = _
    rw [sevFold xs x hx hxs]
    by_cases hm : "medium" ∈ x :: xs
    · rw [if_pos hm, if_pos hm]
    · rw [if_neg hm, if_neg hm]
      by_cases hl : "low" ∈ x :: xs
      · rw [if_pos hl, if_pos hl]
      · rw [if_neg hl, if_neg hl]
        have hhigh : "high" ∈ x :: xs := by
          rcases hx with h1 | h1 | h1
          · exact absurd (List.mem_cons.mpr (Or.inl h1.symm)) hl
          · exact absurd (List.mem_cons.mpr (Or.inl h1.symm)) hm
          · exact h1 ▸ List.mem_cons_self x xs
        rw [if_pos hhigh]

/-- In a list whose image under `f` has no duplicates, `f` is injective on
members. -/
theorem eq_of_map_nodup {α β : Type} (f : α → β) :
    ∀ (l : List α), (l.map f).Nodup → ∀ a ∈ l, ∀ b ∈ l, f a = f b → a = b
  | [], _, a, ha, _, _, _ => absurd ha (List.not_mem_nil a)
  | x :: xs, hnd, a, ha, b, hb, hfab => by
    rw [List.map_cons, List.nodup_cons] at hnd
    rcases List.mem_cons.mp ha with ha1 | ha1 <;> rcases List.mem_cons.mp hb with hb1 | hb1
    · rw [ha1, hb1]
    · exfalso
      apply hnd.1
      rw [← ha1, hfab]
      exact List.mem_map_of_mem f hb1
    · exfalso
      apply hnd.1
      rw [← hb1, ← hfab]
      exact List.mem_map_of_mem f ha1
    · exact eq_of_map_nodup f xs hnd.2 a ha1 b hb1 hfab

/-- The 13 topic names, in table order. -/
def topicNames : List String :=
  ["Technical/Coding", "AI/ML", "BlaqVox Project", "GrandRYZE", "Healthcare/VA",
   "Philosophy/Consciousness", "Creative/Art", "Personal/Life", "Infrastructure",
   "Data Analysis", "Documentation", "Debugging", "Security/Privacy"]

theorem topicPatterns_names : topicPatterns.map (fun tp => tp.1) = topicNames := rfl

/-- Claim C8: `detect_topics` agrees with the specification's description
(`specTopics`), is never empty, and a topic of the table occurs in the
result exactly when one of its patterns matches the text. -/
theorem claim_C8_topics_total (text : List Char) :
    detect_topics text = specTopics text ∧
    detect_topics text ≠ [] ∧
    ∀ tp ∈ topicPatterns,
      (tp.1 ∈ detect_topics text ↔ (tp.2.any fun r => reSearch r (asciiLower text)) = true) := by
  have hnodup : (topicPatterns.map fun tp => tp.1).Nodup := by
    rw [topicPatterns_names]
    decide
  have hgen : ∀ tp ∈ topicPatterns, tp.1 ≠ "General" := by
    intro tp htp
    intro hc
    have : "General" ∈ topicPatterns.map fun tp => tp.1 := hc ▸ List.mem_map_of_mem _ htp
    rw [topicPatterns_names] at this
    exact absurd this (by decide)
  have heq : detect_topics text = specTopics text := by
    simp only [detect_topics, specTopics]
    rw [foldl_append_filter (fun tp => tp.2.any fun r => reSearch r (asciiLower text))
      (fun tp => tp.1) topicPatterns []]
    rw [List.nil_append]
  refine ⟨heq, ?_, ?_⟩
  · rw [heq]
    simp only [specTopics]
    split
    · simp
    · next h => exact h
  · intro tp htp
    rw [heq]
    simp only [specTopics]
    constructor
    · intro hmem
      split at hmem
      · next =>
        rcases List.mem_singleton.mp hmem with h
        exact absurd h (hgen tp htp)
      · next =>
        rcases List.mem_map.mp hmem with ⟨tp2, htp2, hname⟩
        have htp2' := List.mem_filter.mp htp2
        have : tp2 = tp :=
          eq_of_map_nodup (fun tp => tp.1) topicPatterns hnodup tp2 htp2'.1 tp htp hname
        exact this ▸ htp2'.2
    · intro hmatch
      have hmemf : tp ∈ topicPatterns.filter
          (fun tp => tp.2.any fun r => reSearch r (asciiLower text)) :=
        List.mem_filter.mpr ⟨htp, hmatch⟩
      have hmem : tp.1 ∈ (topicPatterns.filter
          (fun tp => tp.2.any fun r => reSearch r (asciiLower text))).map (fun tp => tp.1) :=
        List.mem_map_of_mem _ hmemf
      split
      · next hempty => rw [hempty] at hmem; exact absurd hmem (List.not_mem_nil _)
      · next => exact hmem

theorem lookup_completed (a b c : Nat) :
    (([("completed", a), ("abandoned", b), ("blocked", c)] : List (String × Nat)).lookup
      "completed") = some a := rfl

theorem lookup_abandoned (a b c : Nat) :
    (([("completed", a), ("abandoned", b), ("blocked", c)] : List (String × Nat)).lookup
      "abandoned") = some b := rfl

theorem lookup_blocked (a b c : Nat) :
    (([("completed", a), ("abandoned", b), ("blocked", c)] : List (String × Nat)).lookup
      "blocked") = some c := rfl

theorem completionPatterns_lookup_completed :
    (completionPatterns.lookup "completed").getD [] = completedPats := rfl

theorem completionPatterns_lookup_abandoned :
    (completionPatterns.lookup "abandoned").getD [] = abandonedPats := rfl

theorem completionPatterns_lookup_blocked :
    (completionPatterns.lookup "blocked").getD [] = blockedPats := rfl

theorem nat_max3 (c a b : Nat) :
    Nat.max (Nat.max (Nat.max 0 c) a) b = Nat.max c (Nat.max a b) := by
  show max (max (max 0 c) a) b = max c (max a b)
  rw [Nat.zero_max, max_assoc]

theorem completionScores_eq (texts : List (List Char)) :
    completionScores texts =
      [("completed", specCompletionScore texts "completed"),
       ("abandoned", specCompletionScore texts "abandoned"),
       ("blocked", specCompletionScore texts "blocked")] := by
  have hsum : ∀ l : List RE, (l.map fun r => countMatches r (joinedLower texts)).foldl
      (· + ·) 0 = (l.map fun r => countMatches r (joinedLower texts)).sum := fun l => by
    rw [foldl_add_eq_sum, Nat.zero_add]
  unfold specCompletionScore
  rw [completionPatterns_lookup_completed, completionPatterns_lookup_abandoned,
    completionPatterns_lookup_blocked]
  unfold completionScores
  simp only [completionPatterns, List.map_cons, List.map_nil, hsum]

/-- Claim C5: `analyze_task_completion` scores the three categories by
regex-match count over the joined texts and decides
`completed` when `completed_score > abandoned_score + blocked_score`, else
`abandoned` when positive, else `blocked` when positive, else
`in_progress`, with `confidence = max(scores) / (sum(scores) + 1)`; and on
the text "done fixed blocked" the scores are (2, 0, 1), which yield
`completed` with confidence 1/2. -/
theorem claim_C5_task_completion :
    (∀ texts : List (List Char),
      analyze_task_completion texts =
        { status := specTaskStatus texts
          scores := [("completed", specCompletionScore texts "completed"),
                     ("abandoned", specCompletionScore texts "abandoned"),
                     ("blocked", specCompletionScore texts "blocked")]
          confidence := specTaskConfidence texts }) ∧
    analyze_task_completion ["done fixed blocked".toList] =
      { status := "completed"
        scores := [("completed", 2), ("abandoned", 0), ("blocked", 1)]
        confidence := 1 / 2 } := by
  constructor
  · intro texts
    simp only [analyze_task_completion]
    rw [completionScores_eq texts]
    simp only [lookup_completed, lookup_abandoned, lookup_blocked, Option.getD_some,
      specTaskStatus, specTaskConfidence]
    congr 1
    congr 1
    simp only [List.foldl_cons, List.foldl_nil]
    rw [nat_max3]
  · have hs : completionScores ["done fixed blocked".toList] =
        [("completed", 2), ("abandoned", 0), ("blocked", 1)] := by decide
    simp only [analyze_task_completion, hs, lookup_completed, lookup_abandoned,
      lookup_blocked, Option.getD_some]
    norm_num

/-!  ## Collaboration-quality lemmas and claims (C2) -/

theorem collabPats_lookup_high :
    (collaborationPatterns.lookup "high").getD [] = collabHighPats := rfl

theorem collabPats_lookup_medium :
    (collaborationPatterns.lookup "medium").getD [] = collabMediumPats := rfl

theorem collabPats_lookup_low :
    (collaborationPatterns.lookup "low").getD [] = collabLowPats := rfl

theorem collabPats_lookup_conf :
    (collaborationPatterns.lookup "confrontational").getD [] = collabConfPats := rfl

theorem lookup4_high (a b c d : Nat) :
    (([("high", a), ("medium", b), ("low", c), ("confrontational", d)] :
      List (String × Nat)).lookup "high") = some a := rfl

theorem lookup4_medium (a b c d : Nat) :
    (([("high", a), ("medium", b), ("low", c), ("confrontational", d)] :
      List (String × Nat)).lookup "medium") = some b := rfl

theorem lookup4_low (a b c d : Nat) :
    (([("high", a), ("medium", b), ("low", c), ("confrontational", d)] :
      List (String × Nat)).lookup "low") = some c := rfl

theorem lookup4_conf (a b c d : Nat) :
    (([("high", a), ("medium", b), ("low", c), ("confrontational", d)] :
      List (String × Nat)).lookup "confrontational") = some d := rfl

/-- The per-message accumulation of `analyze_collaboration_quality` adds, for
every category entry, the declarative per-pattern count over all messages. -/
theorem collabFold :
    ∀ (msgs : List (List Char)) (s : List (String × Nat)),
      msgs.foldl collabStep s = s.map fun qn => (qn.1, qn.2 + collabPatternCount msgs qn.1)
  | [], s => by
    simp [collabPatternCount]
  | m :: rest, s => by
    rw [List.foldl_cons, collabFold rest (collabStep s m)]
    unfold collabStep
    rw [List.map_map]
    refine List.map_congr_left fun qn _ => ?_
    show (qn.1, qn.2 +
        (((collaborationPatterns.lookup qn.1).getD []).filter fun r =>
          reSearch r (asciiLower m)).length + collabPatternCount rest qn.1) =
      (qn.1, qn.2 + collabPatternCount (m :: rest) qn.1)
    have hc : collabPatternCount (m :: rest) qn.1 =
        (((collaborationPatterns.lookup qn.1).getD []).filter fun r =>
          reSearch r (asciiLower m)).length + collabPatternCount rest qn.1 := by
      unfold collabPatternCount
      rw [List.map_cons, List.sum_cons]
    rw [hc]
    congr 1
    omega

theorem collabScoresOf_eq (msgs : List (List Char)) :
    collabScoresOf msgs =
      [("high", collabPatternCount msgs "high"),
       ("medium", collabPatternCount msgs "medium"),
       ("low", collabPatternCount msgs "low"),
       ("confrontational", collabPatternCount msgs "confrontational")] := by
  unfold collabScoresOf collabInit
  rw [collabFold]
  simp only [collaborationPatterns, List.map_cons, List.map_nil, Nat.zero_add]

/-- Claim C2, counterexample: on the single message
"collaborate great idea that works" the source counts one increment per
matching **pattern** (high = 2: both the first and the second `high`
pattern match; medium = 1), so it returns "high", while the claimed
per-message counting (high = 1, medium = 1) would return "medium". -/
theorem claim_C2_counterexample :
    analyze_collaboration_quality ["collaborate great idea that works".toList] = "high" ∧
    claimedCollabQuality ["collaborate great idea that works".toList] = "medium" := by
  constructor
  · decide
  · decide

/-- Claim C2 as amended: each message increments a category once per
**matching pattern** of that category (not at most once per message); the
decision cascade is as claimed, and confrontational_score = 3 with
high_score = 5 still yields "confrontational" (witnessed by three concrete
messages with those scores). -/
theorem claim_C2_amended_pattern_counting :
    (∀ msgs : List (List Char),
      analyze_collaboration_quality msgs = collabDecision (collabPatternCount msgs)) ∧
    collabPatternCount ["terrible collaborate great idea expanding".toList,
      "terrible collaborate great idea".toList, "terrible".toList] "confrontational" = 3 ∧
    collabPatternCount ["terrible collaborate great idea expanding".toList,
      "terrible collaborate great idea".toList, "terrible".toList] "high" = 5 ∧
    analyze_collaboration_quality ["terrible collaborate great idea expanding".toList,
      "terrible collaborate great idea".toList, "terrible".toList] = "confrontational" := by
  refine ⟨?_, by decide, by decide, by decide⟩
  intro msgs
  unfold analyze_collaboration_quality collabDecision
  rw [collabScoresOf_eq]
  simp only [lookup4_high, lookup4_medium, lookup4_low, lookup4_conf, Option.getD_some]

/-- Claim C4: `detect_sentiment` returns exactly one label, computed as the
specification describes: `Urgent` unconditionally when the Urgent score is
positive; otherwise the first category (in the fixed 8-category
enumeration order) attaining the maximal score; `Neutral` when every score
is zero. -/
theorem claim_C4_sentiment (text : List Char) :
    detect_sentiment text = specSentiment text := by
  simp only [detect_sentiment, specSentiment]
  by_cases hu : 0 < ((sentimentScores text).lookup "Urgent").getD 0
  · rw [if_pos hu, if_pos hu]
  · rw [if_neg hu, if_neg hu]
    have hlen : (sentimentScores text).length = 8 := by
      simp [sentimentScores, sentimentPatterns]
    cases h : sentimentScores text with
    | nil => rw [h] at hlen; simp at hlen
    | cons x xs =>
      show (if 0 < (xs.foldl argStep x).2 then (xs.foldl argStep x).1 else "Neutral") = _
      have hM : ((x :: xs).map fun p => p.2).foldl Nat.max 0 = (xs.foldl argStep x).2 := by
        rw [argFold_val xs x, List.map_cons, List.foldl_cons]
        congr 1
        show max 0 x.2 = x.2
        exact Nat.zero_max x.2
      rw [hM]
      by_cases hp : 0 < (xs.foldl argStep x).2
      · rw [if_pos hp, if_neg (by omega : ¬(xs.foldl argStep x).2 = 0)]
        rw [argFold_find xs x]
        rfl
      · rw [if_neg hp, if_pos (by omega : (xs.foldl argStep x).2 = 0)]

/-- Claim C3 (code bug evidence): redaction is **not** idempotent on the
text component.  On `t = "a@b.cc a@b.ccd@e.ff"` the email rule's first
pass matches `"a@b.cc"` and `"a@b.ccd"` on the snapshot; replacing every
occurrence of `"a@b.cc"` mangles the second match and leaves the fragment
`"d@e.ff"`, and the `]` of the inserted token creates a fresh word
boundary before it, so the second application redacts it as a new email.
The entity-stage digest function (an external `md5` call in the source) is
universally quantified: no entity rule matches any of these texts, so the
results do not depend on it. -/
theorem claim_C3_redact_not_idempotent :
    ∀ hash8 : List Char → List Char,
      (redact_pii hash8 true "a@b.cc a@b.ccd@e.ff".toList).1 =
          "[EMAIL_REDACTED] [EMAIL_REDACTED]d@e.ff".toList ∧
        (redact_pii hash8 true "[EMAIL_REDACTED] [EMAIL_REDACTED]d@e.ff".toList).1 =
          "[EMAIL_REDACTED] [EMAIL_REDACTED][EMAIL_REDACTED]".toList ∧
        (redact_pii hash8 true
            ((redact_pii hash8 true "a@b.cc a@b.ccd@e.ff".toList).1)).1 ≠
          (redact_pii hash8 true "a@b.cc a@b.ccd@e.ff".toList).1 := by
  intro h8
  have h1 : (redact_pii h8 true "a@b.cc a@b.ccd@e.ff".toList).1 =
      "[EMAIL_REDACTED] [EMAIL_REDACTED]d@e.ff".toList := rfl
  have h2 : (redact_pii h8 true "[EMAIL_REDACTED] [EMAIL_REDACTED]d@e.ff".toList).1 =
      "[EMAIL_REDACTED] [EMAIL_REDACTED][EMAIL_REDACTED]".toList := rfl
  refine ⟨h1, h2, ?_⟩
  rw [h1, h2]
  decide

/-- Claim C7: `detect_pattern_changes` sorts the messages by timestamp
(`sortByTs msgs` is a timestamp-sorted permutation of the input), scores
them ±1/0 by whether the sentiment label contains "Positive"/"Negative",
and flags exactly the indices `i ≥ 1` whose trailing 10-sample moving
average (`maAt`) jumps by more than 0.5 relative to index `i - 1`; the
event's magnitude is that jump and its direction is read off the sign of
the moving average **at** the flagged index (positive iff it is > 0). -/
theorem claim_C7_pattern_changes (msgs : List PMsg) :
    (sortByTs msgs).Perm msgs ∧
    List.Sorted pmsgLE (sortByTs msgs) ∧
    ∀ c : Change, c ∈ detect_pattern_changes msgs ↔
      ∃ i : Nat, 0 < i ∧ i < (sortByTs msgs).length ∧
        1 / 2 < |maAt ((sortByTs msgs).map fun m => sentimentScoreOf m.sentiment) i -
          maAt ((sortByTs msgs).map fun m => sentimentScoreOf m.sentiment) (i - 1)| ∧
        c = { ts := ((sortByTs msgs).getD i ⟨0, ""⟩).ts
              ctype := "sentiment_shift"
              magnitude := |maAt ((sortByTs msgs).map fun m => sentimentScoreOf m.sentiment) i -
                maAt ((sortByTs msgs).map fun m => sentimentScoreOf m.sentiment) (i - 1)|
              direction :=
                if 0 < maAt ((sortByTs msgs).map fun m => sentimentScoreOf m.sentiment) i
                then "positive" else "negative" } := by
  refine ⟨List.perm_insertionSort pmsgLE msgs, List.sorted_insertionSort pmsgLE msgs, ?_⟩
  intro c
  simp only [detect_pattern_changes]
  rw [List.mem_filterMap]
  constructor
  · rintro ⟨i, hi, hf⟩
    rw [List.mem_range] at hi
    by_cases h0 : i = 0
    · rw [if_pos h0] at hf
      simp at hf
    · rw [if_neg h0] at hf
      by_cases hs : (1 : ℚ) / 2 <
          |maAt ((sortByTs msgs).map fun m => sentimentScoreOf m.sentiment) i -
            maAt ((sortByTs msgs).map fun m => sentimentScoreOf m.sentiment) (i - 1)|
      · rw [if_pos hs] at hf
        exact ⟨i, Nat.pos_of_ne_zero h0, hi, hs, (Option.some.inj hf).symm⟩
      · rw [if_neg hs] at hf
        simp at hf
  · rintro ⟨i, h0, hi, hs, hc⟩
    refine ⟨i, List.mem_range.mpr hi, ?_⟩
    rw [if_neg (by omega : ¬i = 0), if_pos hs, hc]

/-!  ## Engagement-score lemmas and claim (C9) -/

theorem mem_of_mem_dedupFirstNat :
    ∀ (seen l : List Nat) (a : Nat), a ∈ dedupFirstNat seen l → a ∈ l
  | _, [], _, h => absurd h (List.not_mem_nil _)
  | seen, x :: xs, a, h => by
    unfold dedupFirstNat at h
    by_cases hx : x ∈ seen
    · rw [if_pos hx] at h
      exact List.mem_cons.mpr (Or.inr (mem_of_mem_dedupFirstNat seen xs a h))
    · rw [if_neg hx] at h
      rcases List.mem_cons.mp h with h1 | h1
      · exact List.mem_cons.mpr (Or.inl h1)
      · exact List.mem_cons.mpr (Or.inr (mem_of_mem_dedupFirstNat (x :: seen) xs a h1))

theorem one_le_sum_q :
    ∀ l : List ℚ, (∀ x ∈ l, (1 : ℚ) ≤ x) → (l.length : ℚ) ≤ l.sum
  | [], _ => by simp
  | x :: xs, h => by
    rw [List.length_cons, List.sum_cons]
    have h1 := h x (List.mem_cons_self x xs)
    have h2 := one_le_sum_q xs fun y hy => h y (List.mem_cons.mpr (Or.inr hy))
    push_cast
    linarith

/-- Claim C9: every per-day engagement score lies in [0, 100] (given the
parser's guarantee that each message has at least one word), and a day
attaining the corpus-wide maximum in all three underlying metrics scores
exactly 100 under the 0.4 / 0.3 / 0.3 weighting (arithmetic modelled
exactly over ℚ). -/
theorem claim_C9_engagement (rows : List ERow)
    (hwc : ∀ r ∈ rows, 1 ≤ r.word_count) :
    ∀ p ∈ calculate_engagement_score rows,
      (0 ≤ p.2 ∧ p.2 ≤ 100) ∧
      (((p.1.message_count : ℚ) = engMaxMc rows ∧ p.1.avg_length = engMaxAvg rows ∧
          (p.1.conversation_count : ℚ) = engMaxCc rows) → p.2 = 100) := by
  intro p hp
  have hform : calculate_engagement_score rows =
      (dayMetricsOf rows).map fun m =>
        (m, ((m.message_count : ℚ) / engMaxMc rows * (2 / 5) +
            m.avg_length / engMaxAvg rows * (3 / 10) +
            (m.conversation_count : ℚ) / engMaxCc rows * (3 / 10)) * 100) := rfl
  rw [hform] at hp
  rcases List.mem_map.mp hp with ⟨m, hm, rfl⟩
  have hmd := hm
  rcases List.mem_map.mp hmd with ⟨d, hd, rfl⟩
  have hd2 : d ∈ rows.map fun r => r.date :=
    mem_of_mem_dedupFirstNat [] _ d ((List.mem_insertionSort _).mp hd)
  rcases List.mem_map.mp hd2 with ⟨r0, hr0, hr0d⟩
  have hgr : r0 ∈ rows.filter fun r => r.date = d := by
    rw [List.mem_filter]
    exact ⟨hr0, by simp [hr0d]⟩
  have hglen : 0 < (rows.filter fun r => r.date = d).length :=
    List.length_pos.mpr (List.ne_nil_of_mem hgr)
  -- the three per-day metrics are at least 1
  have h_mc : 1 ≤ (dayMetric rows d).message_count := hglen
  have h_avg : (1 : ℚ) ≤ (dayMetric rows d).avg_length := by
    show (1 : ℚ) ≤ (((rows.filter fun r => r.date = d).map fun r =>
        (r.word_count : ℚ)).foldl (· + ·) 0) / (((rows.filter fun r => r.date = d).length : ℚ))
    rw [foldl_add_eq_sum, zero_add]
    rw [le_div_iff₀ (by exact_mod_cast hglen), one_mul]
    have := one_le_sum_q ((rows.filter fun r => r.date = d).map fun r => (r.word_count : ℚ))
      (by
        intro x hx
        rcases List.mem_map.mp hx with ⟨r, hr, rfl⟩
        have hrr : r ∈ rows := (List.mem_filter.mp hr).1
        exact_mod_cast hwc r hrr)
    rw [List.length_map] at this
    exact this
  have h_cc : 1 ≤ (dayMetric rows d).conversation_count := by
    show 1 ≤ (dedupFirstNat [] ((rows.filter fun r => r.date = d).map fun r => r.conv)).length
    cases hmap : (rows.filter fun r => r.date = d).map fun r => r.conv with
    | nil =>
      exfalso
      have hlen0 : ((rows.filter fun r => r.date = d).map fun r => r.conv).length = 0 := by
        rw [hmap]
        rfl
      rw [List.length_map] at hlen0
      omega
    | cons x xs =>
      have hstep : dedupFirstNat [] (x :: xs) = x :: dedupFirstNat [x] xs := by
        simp [dedupFirstNat]
      rw [hstep, List.length_cons]
      omega
  -- each metric is bounded by its corpus-wide maximum
  have hmc_le : ((dayMetric rows d).message_count : ℚ) ≤ engMaxMc rows :=
    mem_le_foldl_max _ 0 _ (List.mem_map_of_mem (fun m => (m.message_count : ℚ)) hm)
  have havg_le : (dayMetric rows d).avg_length ≤ engMaxAvg rows :=
    mem_le_foldl_max _ 0 _ (List.mem_map_of_mem (fun m => m.avg_length) hm)
  have hcc_le : ((dayMetric rows d).conversation_count : ℚ) ≤ engMaxCc rows :=
    mem_le_foldl_max _ 0 _ (List.mem_map_of_mem (fun m => (m.conversation_count : ℚ)) hm)
  have hmc1 : (1 : ℚ) ≤ ((dayMetric rows d).message_count : ℚ) := by exact_mod_cast h_mc
  have hcc1 : (1 : ℚ) ≤ ((dayMetric rows d).conversation_count : ℚ) := by exact_mod_cast h_cc
  have hmcpos : (0 : ℚ) < engMaxMc rows := lt_of_lt_of_le (by norm_num) (le_trans hmc1 hmc_le)
  have havgpos : (0 : ℚ) < engMaxAvg rows := lt_of_lt_of_le (by norm_num) (le_trans h_avg havg_le)
  have hccpos : (0 : ℚ) < engMaxCc rows := lt_of_lt_of_le (by norm_num) (le_trans hcc1 hcc_le)
  have r1l : ((dayMetric rows d).message_count : ℚ) / engMaxMc rows ≤ 1 :=
    (div_le_one hmcpos).mpr hmc_le
  have r2l : (dayMetric rows d).avg_length / engMaxAvg rows ≤ 1 :=
    (div_le_one havgpos).mpr havg_le
  have r3l : ((dayMetric rows d).conversation_count : ℚ) / engMaxCc rows ≤ 1 :=
    (div_le_one hccpos).mpr hcc_le
  have r1p : 0 ≤ ((dayMetric rows d).message_count : ℚ) / engMaxMc rows :=
    div_nonneg (by positivity) (le_of_lt hmcpos)
  have r2p : 0 ≤ (dayMetric rows d).avg_length / engMaxAvg rows :=
    div_nonneg (by linarith) (le_of_lt havgpos)
  have r3p : 0 ≤ ((dayMetric rows d).conversation_count : ℚ) / engMaxCc rows :=
    div_nonneg (by positivity) (le_of_lt hccpos)
  refine ⟨⟨by nlinarith, by nlinarith⟩, ?_⟩
  rintro ⟨e1, e2, e3⟩
  show (((dayMetric rows d).message_count : ℚ) / engMaxMc rows * (2 / 5) +
      (dayMetric rows d).avg_length / engMaxAvg rows * (3 / 10) +
      ((dayMetric rows d).conversation_count : ℚ) / engMaxCc rows * (3 / 10)) * 100 = 100
  rw [e1, e2, e3, div_self (ne_of_gt hmcpos), div_self (ne_of_gt havgpos),
    div_self (ne_of_gt hccpos)]
  norm_num

/-- Witness for C9: on the one-message corpus `[⟨0, 1, 1⟩]` the single day
is the pair `(⟨0, 1, 1, 1⟩, 100)`, its score lies in [0, 100], and it
attains all three maxima, scoring exactly 100. -/
theorem claim_C9_engagement_witness :
    (0 ≤ (((⟨0, 1, 1, 1⟩ : DayMetric), (100 : ℚ))).2 ∧
        (((⟨0, 1, 1, 1⟩ : DayMetric), (100 : ℚ))).2 ≤ 100) ∧
      (((((⟨0, 1, 1, 1⟩ : DayMetric), (100 : ℚ))).1.message_count : ℚ) =
            engMaxMc [⟨0, 1, 1⟩] ∧
          (((⟨0, 1, 1, 1⟩ : DayMetric), (100 : ℚ))).1.avg_length = engMaxAvg [⟨0, 1, 1⟩] ∧
          ((((⟨0, 1, 1, 1⟩ : DayMetric), (100 : ℚ))).1.conversation_count : ℚ) =
            engMaxCc [⟨0, 1, 1⟩] →
        (((⟨0, 1, 1, 1⟩ : DayMetric), (100 : ℚ))).2 = 100) := by
  have hc : calculate_engagement_score [(⟨0, 1, 1⟩ : ERow)] =
      [((⟨0, 1, 1, 1⟩ : DayMetric), (100 : ℚ))] := by
    norm_num [calculate_engagement_score, dayMetricsOf, dedupFirstNat, dayMetric,
      engMaxMc, engMaxAvg, engMaxCc, List.insertionSort, List.orderedInsert,
      List.filter, List.foldl]
  exact claim_C9_engagement [⟨0, 1, 1⟩] (by decide)
    ((⟨0, 1, 1, 1⟩ : DayMetric), (100 : ℚ))
    (by rw [hc]; exact List.mem_singleton.mpr rfl)

/-!  ## Streak lemmas and claim (C6) -/

theorem mem_dedupAdj : ∀ (l : List Nat) (a : Nat), a ∈ dedupAdj l ↔ a ∈ l
  | [], _ => Iff.rfl
  | [_], _ => Iff.rfl
  | x :: y :: rest, a => by
    simp only [dedupAdj]
    by_cases h : x = y
    · rw [if_pos h, mem_dedupAdj (y :: rest) a]
      subst h
      simp [List.mem_cons]
    · rw [if_neg h]
      simp only [List.mem_cons, mem_dedupAdj (y :: rest) a]

theorem dedupAdj_sorted_lt :
    ∀ l : List Nat, List.Sorted (· ≤ ·) l → List.Sorted (· < ·) (dedupAdj l)
  | [], _ => List.sorted_nil
  | [x], _ => List.sorted_singleton x
  | x :: y :: rest, h => by
    have hparts := List.sorted_cons.mp h
    have hxy : x ≤ y := hparts.1 y (List.mem_cons_self y rest)
    have htail : List.Sorted (· ≤ ·) (y :: rest) := hparts.2
    simp only [dedupAdj]
    by_cases hxy2 : x = y
    · rw [if_pos hxy2]
      exact dedupAdj_sorted_lt (y :: rest) htail
    · rw [if_neg hxy2]
      rw [List.sorted_cons]
      refine ⟨?_, dedupAdj_sorted_lt (y :: rest) htail⟩
      intro b hb
      have hb2 : b ∈ y :: rest := (mem_dedupAdj (y :: rest) b).mp hb
      have hyb : y ≤ b := by
        rcases List.mem_cons.mp hb2 with h1 | h1
        · omega
        · exact (List.sorted_cons.mp htail).1 b h1
      omega

theorem mem_activeDates (dates : List Nat) (a : Nat) :
    a ∈ activeDates dates ↔ a ∈ dates := by
  unfold activeDates
  rw [mem_dedupAdj]
  exact List.mem_insertionSort (· ≤ ·)

theorem activeDates_sorted (dates : List Nat) :
    List.Sorted (· < ·) (activeDates dates) :=
  dedupAdj_sorted_lt _ (List.sorted_insertionSort (· ≤ ·) dates)

theorem headD_range' (a n : Nat) (h : 1 ≤ n) : (List.range' a n).headD 0 = a := by
  cases n with
  | zero => omega
  | succ k => rw [List.range'_succ]; rfl

theorem getLastD_range' (a n : Nat) (h : 1 ≤ n) :
    (List.range' a n).getLastD 0 = a + n - 1 := by
  rw [List.getLastD_eq_getLast?, List.getLast?_range', if_neg (by omega : ¬n = 0)]
  rfl

theorem mkStreak_range' (dates : List Nat) (b m : Nat) (h : 1 ≤ m) :
    mkStreak dates (List.range' b m) = specStreak dates b m := by
  unfold mkStreak specStreak
  rw [headD_range' b m h, getLastD_range' b m h, List.length_range']

/-- A maximal run of `m ≥ minD` consecutive members of `A` starting at `b`. -/
def IsMaxRunOn (A : List Nat) (minD b m : Nat) : Prop :=
  1 ≤ m ∧ minD ≤ m ∧ (∀ d, b ≤ d → d < b + m → d ∈ A) ∧ (b + m) ∉ A ∧
    (b = 0 ∨ (b - 1) ∉ A)

/-- If the active dates from `a` on are exactly the run `[a, a+n)` (with
nothing at `a+n`), then a maximal run located inside `[a, a+n)` must be
that whole run. -/
theorem run_forces (A : List Nat) (minD a n : Nat) (_hn : 1 ≤ n)
    (hsub : ∀ d, a ≤ d → d < a + n → d ∈ A)
    (hAn : (a + n) ∉ A)
    (b m : Nat) (hmr : IsMaxRunOn A minD b m)
    (hab : a ≤ b) (hbn : b < a + n) : b = a ∧ m = n := by
  obtain ⟨hm1, _, hrun, hbm, hbl⟩ := hmr
  have hba : b = a := by
    by_contra hne
    have hlt : a < b := lt_of_le_of_ne hab (Ne.symm hne)
    have h1 : b - 1 ∈ A := hsub (b - 1) (by omega) (by omega)
    rcases hbl with h2 | h2
    · omega
    · exact h2 h1
  subst hba
  refine ⟨rfl, ?_⟩
  by_cases hmn : m ≤ n
  · by_contra hne
    exact hbm (hsub (b + m) (by omega) (by omega))
  · exfalso
    exact hAn (hrun (b + n) (by omega) (by omega))

/-- Characterisation of the accumulation loop of
`identify_conversation_streaks`: starting from the current run `[a, a+n)`
with the still-unprocessed active dates `rest`, the emitted streaks are
exactly the long-enough maximal runs of active dates located at or after
`a`. -/
theorem streaksGo_spec (dates : List Nat) (minD : Nat) :
    ∀ (rest : List Nat) (a n : Nat), 1 ≤ n →
      List.Sorted (· < ·) (List.range' a n ++ rest) →
      (∀ x, x ∈ List.range' a n ++ rest → x ∈ activeDates dates) →
      (∀ x, x ∈ activeDates dates → a ≤ x → x ∈ List.range' a n ++ rest) →
      (a = 0 ∨ (a - 1) ∉ activeDates dates) →
      ∀ s, s ∈ streaksGo dates minD (List.range' a n) rest ↔
        ∃ b m, IsMaxRunOn (activeDates dates) minD b m ∧ a ≤ b ∧
          s = mkStreak dates (List.range' b m)
  | [], a, n, hn, _, hsub, hcov, hleft, s => by
    have hsub_run : ∀ x, a ≤ x → x < a + n → x ∈ activeDates dates := by
      intro x h1 h2
      exact hsub x (by
        rw [List.append_nil]
        exact List.mem_range'_1.mpr ⟨h1, h2⟩)
    have hAn : (a + n) ∉ activeDates dates := by
      intro hmem
      have := hcov (a + n) hmem (by omega)
      rw [List.append_nil] at this
      have := List.mem_range'_1.mp this
      omega
    simp only [streaksGo, List.length_range']
    constructor
    · intro hs
      split at hs
      · next hminD =>
        rw [List.mem_singleton] at hs
        exact ⟨a, n, ⟨hn, hminD, hsub_run, hAn, hleft⟩, le_refl a, hs⟩
      · next => exact absurd hs (List.not_mem_nil s)
    · rintro ⟨b, m, hmr, hab, hs⟩
      have hbA : b ∈ activeDates dates := hmr.2.2.1 b (le_refl b) (by
        have := hmr.1
        omega)
      have hbran : b ∈ List.range' a n := by
        have := hcov b hbA hab
        rw [List.append_nil] at this
        exact this
      have hbn : b < a + n := (List.mem_range'_1.mp hbran).2
      obtain ⟨hba, hmn⟩ := run_forces (activeDates dates) minD a n hn hsub_run hAn b m hmr hab hbn
      subst hba
      subst hmn
      rw [if_pos hmr.2.1]
      rw [List.mem_singleton]
      exact hs
  | d :: rest', a, n, hn, hsort, hsub, hcov, hleft, s => by
    have hparts := List.pairwise_append.mp hsort
    have hrange_lt : ∀ x ∈ List.range' a n, ∀ y ∈ d :: rest', x < y := hparts.2.2
    have hd_tail : List.Sorted (· < ·) (d :: rest') := hparts.2.1
    have hand : a + n - 1 < d :=
      hrange_lt (a + n - 1) (List.mem_range'_1.mpr ⟨by omega, by omega⟩) d
        (List.mem_cons_self d rest')
    have hda_le : a + n ≤ d := by omega
    have hglast : (List.range' a n).getLastD 0 + 1 = a + n := by
      rw [getLastD_range' a n hn]
      omega
    simp only [streaksGo, hglast, List.length_range']
    by_cases hda : d = a + n
    · rw [if_pos hda]
      have hconcat : List.range' a n ++ [d] = List.range' a (n + 1) := by
        rw [List.range'_1_concat, hda]
      have hlist : (List.range' a n ++ [d]) ++ rest' = List.range' a n ++ (d :: rest') := by
        rw [List.append_assoc, List.singleton_append]
      rw [hconcat]
      have hIH := streaksGo_spec dates minD rest' a (n + 1) (by omega)
        (by rw [← hconcat, hlist]; exact hsort)
        (by rw [← hconcat, hlist]; exact hsub)
        (by rw [← hconcat, hlist]; exact hcov)
        hleft s
      exact hIH
    · rw [if_neg hda]
      have hdan : a + n < d := by omega
      have hsub_run : ∀ x, a ≤ x → x < a + n → x ∈ activeDates dates := by
        intro x h1 h2
        exact hsub x (List.mem_append_left _ (List.mem_range'_1.mpr ⟨h1, h2⟩))
      have hAn : (a + n) ∉ activeDates dates := by
        intro hmem
        have := hcov (a + n) hmem (by omega)
        rcases List.mem_append.mp this with h1 | h1
        · have := List.mem_range'_1.mp h1
          omega
        · rcases List.mem_cons.mp h1 with h2 | h2
          · omega
          · have := (List.sorted_cons.mp hd_tail).1 (a + n) h2
            omega
      have hd_left : d = 0 ∨ (d - 1) ∉ activeDates dates := by
        right
        intro hmem
        have := hcov (d - 1) hmem (by omega)
        rcases List.mem_append.mp this with h1 | h1
        · have := List.mem_range'_1.mp h1
          omega
        · rcases List.mem_cons.mp h1 with h2 | h2
          · omega
          · have := (List.sorted_cons.mp hd_tail).1 (d - 1) h2
            omega
      have hIH := streaksGo_spec dates minD rest' d 1 (le_refl 1)
        (by rw [List.range'_one, List.singleton_append]; exact hd_tail)
        (by
          rw [List.range'_one, List.singleton_append]
          intro x hx
          exact hsub x (List.mem_append_right _ hx))
        (by
          rw [List.range'_one, List.singleton_append]
          intro x hxA hdx
          have := hcov x hxA (by omega)
          rcases List.mem_append.mp this with h1 | h1
          · have := List.mem_range'_1.mp h1
            omega
          · exact h1)
        hd_left s
      rw [List.range'_one] at hIH
      rw [List.mem_append]
      constructor
      · intro hs
        rcases hs with hs | hs
        · split at hs
          · next hminD =>
            rw [List.mem_singleton] at hs
            exact ⟨a, n, ⟨hn, hminD, hsub_run, hAn, hleft⟩, le_refl a, hs⟩
          · next => exact absurd hs (List.not_mem_nil s)
        · obtain ⟨b, m, hmr, hdb, hs2⟩ := hIH.mp hs
          exact ⟨b, m, hmr, by omega, hs2⟩
      · rintro ⟨b, m, hmr, hab, hs2⟩
        by_cases hb : b < a + n
        · left
          obtain ⟨hba, hmn⟩ := run_forces (activeDates dates) minD a n hn hsub_run hAn
            b m hmr hab hb
          subst hba
          subst hmn
          rw [if_pos hmr.2.1, List.mem_singleton]
          exact hs2
        · right
          have hbA : b ∈ activeDates dates := hmr.2.2.1 b (le_refl b) (by
            have := hmr.1
            omega)
          have hbne : ¬b = a + n := fun hc => hAn (hc ▸ hbA)
          have hdb : d ≤ b := by
            by_contra hbd
            have := hcov b hbA (by omega)
            rcases List.mem_append.mp this with h1 | h1
            · have := List.mem_range'_1.mp h1
              omega
            · rcases List.mem_cons.mp h1 with h2 | h2
              · omega
              · have := (List.sorted_cons.mp hd_tail).1 b h2
                omega
          exact hIH.mpr ⟨b, m, hmr, hdb, hs2⟩

/-- Claim C6: with `min_days ≥ 1`, `identify_conversation_streaks` returns
exactly the maximal runs of ≥ `min_days` consecutive active dates — each
streak records the run's bounds, its length, and the number of messages
whose date falls in `[start, end]` inclusive — sorted descending by
length; and the concrete instance with active dates
`[D, D+1, D+2, D+4, D+5, D+6, D+7]` (`D = 0`, one message per date) and
`min_days = 3` yields exactly the two streaks `[4..7]` (length 4) before
`[0..2]` (length 3). -/
theorem claim_C6_streaks (dates : List Nat) (minD : Nat) (hmin : 1 ≤ minD) :
    (∀ s, s ∈ identify_conversation_streaks dates minD ↔
      ∃ b m, 1 ≤ m ∧ minD ≤ m ∧ (∀ x, b ≤ x → x < b + m → x ∈ dates) ∧
        (b + m) ∉ dates ∧ (b = 0 ∨ (b - 1) ∉ dates) ∧ s = specStreak dates b m) ∧
    List.Pairwise streakGE (identify_conversation_streaks dates minD) ∧
    identify_conversation_streaks [0, 1, 2, 4, 5, 6, 7] 3 =
      [{ start_date := 4, end_date := 7, length_days := 4, message_count := 4 },
       { start_date := 0, end_date := 2, length_days := 3, message_count := 3 }] := by
  refine ⟨?_, ?_, by decide⟩
  · intro s
    simp only [identify_conversation_streaks]
    by_cases hsz : (activeDates dates).length < minD
    · rw [if_pos hsz]
      simp only [List.not_mem_nil, false_iff]
      rintro ⟨b, m, hm1, hminD, hrun, _, _, _⟩
      have hsubA : List.range' b m ⊆ activeDates dates := by
        intro x hx
        have hx2 := List.mem_range'_1.mp hx
        exact (mem_activeDates dates x).mpr (hrun x hx2.1 hx2.2)
      have hcard : m ≤ (activeDates dates).length := by
        have := List.Subperm.length_le
          (List.subperm_of_subset (List.nodup_range' b m) hsubA)
        rw [List.length_range'] at this
        exact this
      omega
    · rw [if_neg hsz]
      cases hact : activeDates dates with
      | nil =>
        exfalso
        rw [hact] at hsz
        simp at hsz
        omega
      | cons a rest =>
        have hsorted : List.Sorted (· < ·) (a :: rest) := hact ▸ activeDates_sorted dates
        have hspec := streaksGo_spec dates minD rest a 1 (le_refl 1)
          (by rw [List.range'_one, List.singleton_append]; exact hsorted)
          (by
            rw [List.range'_one, List.singleton_append, hact]
            exact fun x hx => hx)
          (by
            rw [List.range'_one, List.singleton_append, hact]
            exact fun x hx _ => hx)
          (by
            by_cases ha0 : a = 0
            · exact Or.inl ha0
            · right
              intro hmem
              rw [hact] at hmem
              rcases List.mem_cons.mp hmem with h1 | h1
              · omega
              · have := (List.sorted_cons.mp hsorted).1 (a - 1) h1
                omega)
          s
        rw [List.range'_one] at hspec
        rw [List.mem_insertionSort streakGE, hspec]
        constructor
        · rintro ⟨b, m, ⟨hm1, hminD, hrun, hnotm, hlft⟩, _, hs⟩
          refine ⟨b, m, hm1, hminD, ?_, ?_, ?_, ?_⟩
          · intro x h1 h2
            exact (mem_activeDates dates x).mp (hrun x h1 h2)
          · intro hc
            exact hnotm ((mem_activeDates dates (b + m)).mpr hc)
          · rcases hlft with h1 | h1
            · exact Or.inl h1
            · exact Or.inr fun hc => h1 ((mem_activeDates dates (b - 1)).mpr hc)
          · rw [hs, mkStreak_range' dates b m hm1]
        · rintro ⟨b, m, hm1, hminD, hrun, hnotm, hlft, hs⟩
          have hab : a ≤ b := by
            have hbA : b ∈ activeDates dates :=
              (mem_activeDates dates b).mpr (hrun b (le_refl b) (by omega))
            rw [hact] at hbA
            rcases List.mem_cons.mp hbA with h1 | h1
            · omega
            · have := (List.sorted_cons.mp hsorted).1 b h1
              omega
          refine ⟨b, m, ⟨hm1, hminD, ?_, ?_, ?_⟩, hab, ?_⟩
          · intro x h1 h2
            exact (mem_activeDates dates x).mpr (hrun x h1 h2)
          · intro hc
            exact hnotm ((mem_activeDates dates (b + m)).mp hc)
          · rcases hlft with h1 | h1
            · exact Or.inl h1
            · exact Or.inr fun hc => h1 ((mem_activeDates dates (b - 1)).mp hc)
          · rw [hs, mkStreak_range' dates b m hm1]
  · simp only [identify_conversation_streaks]
    by_cases hsz : (activeDates dates).length < minD
    · rw [if_pos hsz]
      exact List.Pairwise.nil
    · rw [if_neg hsz]
      cases activeDates dates with
      | nil => exact List.Pairwise.nil
      | cons a rest => exact List.sorted_insertionSort streakGE _

/-- Witness for C6: the theorem applied at the concrete instance
(`min_days = 3`, one message on each of the dates 0, 1, 2, 4, 5, 6, 7),
extracting the descending-by-length ordering of the output. -/
theorem claim_C6_streaks_witness :
    List.Pairwise streakGE (identify_conversation_streaks [0, 1, 2, 4, 5, 6, 7] 3) :=
  (claim_C6_streaks [0, 1, 2, 4, 5, 6, 7] 3 (by decide)).2.1

/-!  ## Witness instances of the universally quantified claim theorems -/

/-- Witness for C8: on the text "python bug" the third conjunct is
instantiated at the (member) table entry `("Technical/Coding",
techCodingPats)`, and the result is non-empty. -/
theorem claim_C8_topics_total_witness :
    detect_topics "python bug".toList ≠ [] ∧
      (("Technical/Coding", techCodingPats).1 ∈ detect_topics "python bug".toList ↔
        ((("Technical/Coding", techCodingPats).2.any fun r =>
          reSearch r (asciiLower "python bug".toList)) = true)) :=
  ⟨(claim_C8_topics_total "python bug".toList).2.1,
   (claim_C8_topics_total "python bug".toList).2.2 ("Technical/Coding", techCodingPats)
     (List.mem_cons_self _ _)⟩

/-- Witness for C2 (amended): the amended counting law at a concrete
message list. -/
theorem claim_C2_amended_witness :
    analyze_collaboration_quality ["terrible".toList] =
      collabDecision (collabPatternCount ["terrible".toList]) :=
  claim_C2_amended_pattern_counting.1 ["terrible".toList]

/-- Witness for C3: the non-idempotence instance with the digest function
that maps every input to the empty digest. -/
theorem claim_C3_redact_witness :
    (redact_pii (fun _ => []) true "a@b.cc a@b.ccd@e.ff".toList).1 =
        "[EMAIL_REDACTED] [EMAIL_REDACTED]d@e.ff".toList ∧
      (redact_pii (fun _ => []) true "[EMAIL_REDACTED] [EMAIL_REDACTED]d@e.ff".toList).1 =
        "[EMAIL_REDACTED] [EMAIL_REDACTED][EMAIL_REDACTED]".toList ∧
      (redact_pii (fun _ => []) true
          ((redact_pii (fun _ => []) true "a@b.cc a@b.ccd@e.ff".toList).1)).1 ≠
        (redact_pii (fun _ => []) true "a@b.cc a@b.ccd@e.ff".toList).1 :=
  claim_C3_redact_not_idempotent fun _ => []

/-- Witness for C4: the sentiment description at the concrete text
"help, broken!!" (an Urgent-override instance). -/
theorem claim_C4_sentiment_witness :
    detect_sentiment "help, broken!!".toList = specSentiment "help, broken!!".toList :=
  claim_C4_sentiment "help, broken!!".toList

/-- Witness for C5: the task-completion description at the concrete
single-message input "done fixed blocked". -/
theorem claim_C5_task_completion_witness :
    analyze_task_completion ["done fixed blocked".toList] =
      { status := specTaskStatus ["done fixed blocked".toList]
        scores := [("completed", specCompletionScore ["done fixed blocked".toList] "completed"),
                   ("abandoned", specCompletionScore ["done fixed blocked".toList] "abandoned"),
                   ("blocked", specCompletionScore ["done fixed blocked".toList] "blocked")]
        confidence := specTaskConfidence ["done fixed blocked".toList] } :=
  claim_C5_task_completion.1 ["done fixed blocked".toList]

/-- Witness for C7: the sortedness/permutation conjuncts at a concrete
two-message input. -/
theorem claim_C7_pattern_changes_witness :
    (sortByTs [⟨1, "Negative"⟩, ⟨0, "Very Positive"⟩]).Perm
        [⟨1, "Negative"⟩, ⟨0, "Very Positive"⟩] ∧
      List.Sorted pmsgLE (sortByTs [⟨1, "Negative"⟩, ⟨0, "Very Positive"⟩]) :=
  ⟨(claim_C7_pattern_changes [⟨1, "Negative"⟩, ⟨0, "Very Positive"⟩]).1,
   (claim_C7_pattern_changes [⟨1, "Negative"⟩, ⟨0, "Very Positive"⟩]).2.1⟩

/-- Witness for C10: the lexicographic-maximum law at the concrete text
"fabricated markdown". -/
theorem claim_C10_max_failure_severity_witness :
    max_failure_severity "assistant" "fabricated markdown".toList =
      (if "medium" ∈ (detect_failures "fabricated markdown".toList).2 then "medium"
       else if "low" ∈ (detect_failures "fabricated markdown".toList).2 then "low"
       else if "high" ∈ (detect_failures "fabricated markdown".toList).2 then "high"
       else "none") :=
  claim_C10_max_failure_severity.1 "fabricated markdown".toList

end Convoscope
